import Mathlib

/-!
Shallow embedding of the AVaaSt controller/gateway core, together with
theorems settling the frozen specification claims.

Conventions used throughout:

* JavaScript `Map` objects are modelled as association lists
  `List (String × α)` in insertion order; `mapSet` preserves the position
  of an existing key and appends new keys, matching `Map.set` iteration
  semantics.  `Map.values()` is `List.map Prod.snd`.
* Fallible TypeScript code (functions that `throw`) is modelled with
  `Except String`.
* Wall-clock times (`Date.now()`, ISO timestamps) are modelled as natural
  numbers threaded explicitly.
-/

namespace AVaaSt

/-! ## Association-list model of JavaScript Map -/

/-- Map.get: first binding of the key, if any. -/
def mapGet {α : Type} (m : List (String × α)) (k : String) : Option α :=
  match m with
  | [] => none
  | (k', v) :: rest => if k' = k then some v else mapGet rest k

/-- Map.set: overwrite in place when the key exists, append otherwise
(JavaScript Map iteration order keeps the original insertion position). -/
def mapSet {α : Type} (m : List (String × α)) (k : String) (v : α) :
    List (String × α) :=
  match m with
  | [] => [(k, v)]
  | (k', v') :: rest =>
    if k' = k then (k', v) :: rest else (k', v') :: mapSet rest k v

/-- Map.delete: remove the binding of the key (it occurs at most once). -/
def mapDelete {α : Type} (m : List (String × α)) (k : String) :
    List (String × α) :=
  match m with
  | [] => []
  | (k', v') :: rest =>
    if k' = k then rest else (k', v') :: mapDelete rest k

/-! ## Shared data model -/

/-- ResourceRef from the shared package: pair of authority id and content
hash. -/
structure ResourceRef where
  did : String
  cid : String
deriving DecidableEq, Repr

/-- refKey from dependency-graph.ts: canonical textual form "did:cid". -/
def refKey (ref : ResourceRef) : String :=
  ref.did ++ ":" ++ ref.cid

/-! ## QueryCache (src/packages/controller/src/query/cache.ts) -/

/-- Cache entry as stored by `QueryCache.set`: value, absolute expiry
time, and the version string the entry was written under. -/
structure CacheEntry (V : Type) where
  value : V
  expiresAt : Int
  version : String
deriving DecidableEq, Repr

/-- QueryCache.get.  `now` is the value of `Date.now()` at call time.
Returns the hit (if any) together with the cache state after the call:
an expired entry or a version mismatch deletes the entry and misses. -/
def QueryCache.get {V : Type} (cache : List (String × CacheEntry V))
    (key : String) (version : String) (now : Int) :
    Option V × List (String × CacheEntry V) :=
  match mapGet cache key with
  | none => (none, cache)
  | some entry =>
    if entry.expiresAt < now then
      (none, mapDelete cache key)
    else if entry.version ≠ version then
      (none, mapDelete cache key)
    else
      (some entry.value, cache)

/-! ## TrafficShaper (gateway traffic shaper source) -/

/-- TrafficRule: a deploy ref and its weight in basis points.  Weights
are JavaScript numbers; integral weights are modelled as `Int`. -/
structure TrafficRule where
  deploy : ResourceRef
  weight : Int
deriving DecidableEq, Repr

/-- TOTAL_BASIS_POINTS constant. -/
def TOTAL_BASIS_POINTS : Int := 10000

/-- The descending-by-weight sort performed by `updateRules`
(`[...rules].sort((a, b) => b.weight - a.weight)`; JavaScript sort is
stable, as is `List.mergeSort`). -/
def sortRulesDesc (rules : List TrafficRule) : List TrafficRule :=
  rules.mergeSort (fun a b => b.weight ≤ a.weight)

/-- TrafficShaper.updateRules.  Empty input clears the rules; otherwise
the weights must sum to exactly 10000 and each weight must lie in
[0, 10000], else the update throws and the stored rules are unchanged.
The result is the new stored rule list on success. -/
def TrafficShaper.updateRules (rules : List TrafficRule) :
    Except String (List TrafficRule) :=
  if rules.length = 0 then
    .ok []
  else
    -- const total = rules.reduce((sum, r) => sum + r.weight, 0)
    if rules.foldl (fun sum r => sum + r.weight) 0 ≠ TOTAL_BASIS_POINTS then
      .error "Traffic rules must sum to 10000 basis points"
    else
      match rules.find? (fun r => r.weight < 0 || r.weight > TOTAL_BASIS_POINTS) with
      | some _ => .error "Traffic rule weight must be between 0 and 10000"
      | none => .ok (sortRulesDesc rules)

/-- hashToRange: DJB2 rolling hash of the sticky key's UTF-16 code
units, with JavaScript 32-bit wrap-around (`| 0` / `>>> 0` keep the
value congruent mod 2^32), mapped into [0, 10000). -/
def hashToRange (key : List Nat) : Nat :=
  (key.foldl (fun hash c => (hash * 33 + c) % 4294967296) 5381) % 10000

/-- The cumulative-weight walk inside `selectDeploy`: accumulate weights
over the (sorted) rules and return the first rule whose cumulative span
covers `value`; fall back to the last rule after the loop. -/
def selectWalk (rules : List TrafficRule) (value : Int) (cumulative : Int)
    (fallback : Option ResourceRef) : Option ResourceRef :=
  match rules with
  | [] => fallback
  | r :: rest =>
    let c := cumulative + r.weight
    if value < c then some r.deploy else selectWalk rest value c fallback

/-- TrafficShaper.selectDeploy with a sticky key present (the
`stickyKey !== undefined` branch; sticky keys are modelled as their
UTF-16 code-unit lists).  `rules` is the stored, weight-desc-sorted rule
list.  Returns null when no rules are configured. -/
def TrafficShaper.selectDeploy (rules : List TrafficRule) (stickyKey : List Nat) :
    Option ResourceRef :=
  match rules with
  | [] => none
  | [r] => some r.deploy
  | _ =>
    let value : Int := (hashToRange stickyKey : Int)
    selectWalk rules value 0 ((rules.getLast?).map TrafficRule.deploy)

/-- Gateway-level shaper operations during one rule set's lifetime:
an `updateRules` push or a sticky `selectDeploy` call. -/
inductive ShaperOp where
  | update (rules : List TrafficRule)
  | select (key : List Nat)

/-- Effect of one operation on the stored rule list: a throwing
`updateRules` leaves the stored rules unchanged, `selectDeploy` never
mutates state. -/
def applyShaperOp (stored : List TrafficRule) : ShaperOp → List TrafficRule
  | .update rules =>
    match TrafficShaper.updateRules rules with
    | .ok newRules => newRules
    | .error _ => stored
  | .select _ => stored

/-- Run a sequence of shaper operations. -/
def runShaperOps (stored : List TrafficRule) (ops : List ShaperOp) :
    List TrafficRule :=
  ops.foldl applyShaperOp stored

/-- True when the operation cannot install a new rule set: a sticky
select, or an updateRules call that throws (acceptance of `updateRules`
depends only on its argument, not on the stored rules). -/
def preservesRules : ShaperOp → Bool
  | .update rules => !(TrafficShaper.updateRules rules).isOk
  | .select _ => true

/-! ## Auth extraction (gateway auth source: extractAuth / decodeJwtPayload) -/

/-- JSON value as seen by the `iss` / `sub` claim lookups: absent
(`undefined`), `null`, a string, or any other JSON value (number,
boolean, object, array) whose precise contents never matter to
`extractAuth`. -/
inductive JsVal where
  | undef
  | jnull
  | str (s : String)
  | other
deriving DecidableEq, Repr

/-- Result of JSON-parsing a JWT payload segment, projected to the two
claims `extractAuth` reads.  A payload that is not an object yields
`undefined` for both. -/
structure JwtPayload where
  iss : JsVal
  sub : JsVal
deriving DecidableEq, Repr

/-- JavaScript nullish coalescing `a ?? b`. -/
def jsCoalesce (a b : JsVal) : JsVal :=
  match a with
  | .undef => b
  | .jnull => b
  | v => v

/-- AuthContext returned by extractAuth. -/
structure AuthContext where
  did : Option String
  authenticated : Bool
deriving DecidableEq, Repr

/-- decodeJwtPayload: split the token on dots, require exactly three
segments, then base64url-decode and JSON.parse the payload segment.
The base64url decode plus JSON.parse step is abstracted as
`decodeB64Json` (base64url decoding in Node never throws; JSON.parse of
a malformed payload throws, modelled by the `Except.error` case). -/
def decodeJwtPayload (decodeB64Json : String → Except String JwtPayload)
    (token : String) : Except String JwtPayload :=
  match token.splitOn "." with
  | [_, payloadB64, _] => decodeB64Json payloadB64
  | _ => .error "Invalid JWT: expected 3 segments"

/-- extractAuth: read the Authorization header, require the exact shape
"Bearer <token>" (split on single spaces must give exactly two parts,
the first equal to "Bearer"), decode the JWT payload, take `iss ?? sub`,
and succeed exactly when that is a string starting with "did:".  Every
decode failure is caught and yields an unauthenticated context. -/
def extractAuth (decodeB64Json : String → Except String JwtPayload)
    (authHeader : Option String) : AuthContext :=
  match authHeader with
  | none => ⟨none, false⟩
  | some header =>
    match header.splitOn " " with
    | [p0, token] =>
      if p0 = "Bearer" then
        match decodeJwtPayload decodeB64Json token with
        | .error _ => ⟨none, false⟩
        | .ok payload =>
          match jsCoalesce payload.iss payload.sub with
          | .str did =>
            if did.startsWith "did:" then ⟨some did, true⟩ else ⟨none, false⟩
          | _ => ⟨none, false⟩
      else ⟨none, false⟩
    | _ => ⟨none, false⟩

/-! ## Query engine value model (src/packages/controller/src/query/engine.ts) -/

/-- Runtime values flowing through the query engine (`unknown` in the
source).  JavaScript numbers are modelled as rationals; `vnan` absorbs
NaN and the infinities produced by numeric coercion of non-numeric
data (no spec claim depends on those corners). -/
inductive Val where
  | vundef
  | vnull
  | vbool (b : Bool)
  | vnum (q : ℚ)
  | vnan
  | vstr (s : String)
  | varr (elems : List Val)
  | vobj (fields : List (String × Val))

/-- Row = Record<string, unknown> with fully qualified "alias.field"
keys, in property-insertion order. -/
abbrev Row : Type := List (String × Val)

mutual

/-- Structural value equality, used to model JavaScript `===` and
`Array.includes`.  (`===` on two distinct arrays/objects is reference
inequality in JavaScript; the engine only ever compares values coming
out of records, where structural equality is the intended reading.) -/
def beqVal : Val → Val → Bool
  | .vundef, .vundef => true
  | .vnull, .vnull => true
  | .vbool a, .vbool b => a == b
  | .vnum a, .vnum b => a == b
  | .vnan, .vnan => true
  | .vstr a, .vstr b => a == b
  | .varr a, .varr b => beqValList a b
  | .vobj a, .vobj b => beqValFields a b
  | _, _ => false

/-- Elementwise equality of value lists. -/
def beqValList : List Val → List Val → Bool
  | [], [] => true
  | a :: as_, b :: bs => beqVal a b && beqValList as_ bs
  | _, _ => false

/-- Fieldwise equality of object field lists. -/
def beqValFields : List (String × Val) → List (String × Val) → Bool
  | [], [] => true
  | (k, v) :: as_, (k', v') :: bs => k == k' && beqVal v v' && beqValFields as_ bs
  | _, _ => false

end

/-- JavaScript truthiness: null, undefined, 0, NaN, "" and false are
falsy; everything else is truthy. -/
def truthy : Val → Bool
  | .vundef => false
  | .vnull => false
  | .vbool b => b
  | .vnum q => q ≠ 0
  | .vnan => false
  | .vstr s => s ≠ ""
  | .varr _ => true
  | .vobj _ => true

/-- JavaScript ToNumber coercion, partially modelled: `none` stands for
NaN.  String-to-number parsing and array/object coercion are
approximated as NaN; no claim depends on them. -/
def jsToNumber : Val → Option ℚ
  | .vnum q => some q
  | .vbool b => some (cond b 1 0)
  | .vnull => some 0
  | _ => none

/-- Truncation toward zero, as JavaScript ToInteger does. -/
def truncQ (q : ℚ) : Int :=
  if 0 ≤ q then ⌊q⌋ else ⌈q⌉

/-- JavaScript String() coercion, approximated: number formatting uses
the Rat ToString instance rather than the exact double-to-string
algorithm; arrays and objects are approximated by their canonical
serialisation.  No claim depends on the exact text. -/
def jsToStringApprox : Val → String
  | .vundef => "undefined"
  | .vnull => "null"
  | .vbool b => cond b "true" "false"
  | .vnum q => toString q
  | .vnan => "NaN"
  | .vstr s => s
  | .varr _ => ""
  | .vobj _ => ""

mutual

/-- Canonical serialisation (JSON.stringify) used for group keys and
distinct: string escaping is approximated by plain quoting, and a
top-level undefined serialises as "undefined" (JSON.stringify returns
undefined there, which the group-key `join` renders as an empty string
and `canonKey` below reproduces). -/
def canonVal : Val → String
  | .vundef => "undefined"
  | .vnull => "null"
  | .vbool b => cond b "true" "false"
  | .vnum q => toString q
  | .vnan => "null"
  | .vstr s => "\"" ++ s ++ "\""
  | .varr vs => "[" ++ canonValList vs ++ "]"
  | .vobj fs => "\x7b" ++ canonValFields fs ++ "\x7d"

/-- Comma-joined serialisation of array elements. -/
def canonValList : List Val → String
  | [] => ""
  | [v] => canonVal v
  | v :: rest => canonVal v ++ "," ++ canonValList rest

/-- Comma-joined serialisation of object fields. -/
def canonValFields : List (String × Val) → String
  | [] => ""
  | [(k, v)] => "\"" ++ k ++ "\":" ++ canonVal v
  | (k, v) :: rest => "\"" ++ k ++ "\":" ++ canonVal v ++ "," ++ canonValFields rest

end

/-- Serialisation of one group-key component: `JSON.stringify` yields
undefined for undefined values and `Array.prototype.join` renders that
as the empty string. -/
def canonKey (v : Val) : String :=
  match v with
  | .vundef => ""
  | _ => canonVal v

/-- SQL LIKE matching after the source's `%`→`.*`, `_`→`.` rewrite,
anchored at both ends (regex metacharacters other than the two
wildcards are modelled literally). -/
def likeMatch (pattern text : List Char) : Bool :=
  match pattern, text with
  | [], [] => true
  | [], _ :: _ => false
  | '%' :: ps, s =>
    likeMatch ps s ||
      (match s with
       | [] => false
       | _ :: t => likeMatch ('%' :: ps) t)
  | '_' :: ps, _ :: t => likeMatch ps t
  | '_' :: _, [] => false
  | c :: ps, c' :: t => c == c' && likeMatch ps t
  | _ :: _, [] => false
termination_by (text.length, pattern.length)

/-- JavaScript relational comparison as used by gt/gte/lt/lte: strings
compare lexicographically, otherwise both sides convert to number and
NaN comparisons are false.  (The source casts with `as number`; the
runtime semantics are the JavaScript relational operators.) -/
def jsRel (fq : ℚ → ℚ → Bool) (fs : String → String → Bool) (l r : Val) : Bool :=
  match l, r with
  | .vstr a, .vstr b => fs a b
  | _, _ =>
    match jsToNumber l, jsToNumber r with
    | some a, some b => fq a b
    | _, _ => false

/-- Comparison operators (Comparison.op). -/
inductive CompOp where
  | eq | neq | gt | gte | lt | lte | like | isIn | notIn | isNull | isNotNull | between
deriving DecidableEq, Repr

/-- evaluateComparison's per-operator logic on the already-evaluated
operand values. -/
def applyComparison (op : CompOp) (l r : Val) : Bool :=
  match op with
  | .eq => beqVal l r
  | .neq => !beqVal l r
  | .gt => jsRel (fun a b => b < a) (fun a b => b < a) l r
  | .gte => jsRel (fun a b => b ≤ a) (fun a b => b ≤ a) l r
  | .lt => jsRel (fun a b => a < b) (fun a b => a < b) l r
  | .lte => jsRel (fun a b => a ≤ b) (fun a b => a ≤ b) l r
  | .like =>
    match l, r with
    | .vstr a, .vstr b => likeMatch b.toList a.toList
    | _, _ => false
  | .isIn =>
    match r with
    | .varr elems => elems.any (beqVal l)
    | _ => false
  | .notIn =>
    match r with
    | .varr elems => !elems.any (beqVal l)
    | _ => false
  | .isNull =>
    match l with
    | .vnull => true
    | .vundef => true
    | _ => false
  | .isNotNull =>
    match l with
    | .vnull => false
    | .vundef => false
    | _ => true
  | .between =>
    match r with
    | .varr elems =>
      let lo := (elems.get? 0).getD .vundef
      let hi := (elems.get? 1).getD .vundef
      jsRel (fun a b => b ≤ a) (fun a b => b ≤ a) l lo &&
        jsRel (fun a b => a ≤ b) (fun a b => a ≤ b) l hi
    | _ => false

/-- Arithmetic operators (ArithmeticOp.op). -/
inductive ArithOp where
  | add | subtract | multiply | divide | modulo
deriving DecidableEq, Repr

/-- Numeric binary operation with NaN propagation (non-numeric operands
coerce to NaN under `jsToNumber`'s approximation). -/
def jsNumBin (f : ℚ → ℚ → ℚ) (l r : Val) : Val :=
  match jsToNumber l, jsToNumber r with
  | some a, some b => .vnum (f a b)
  | _, _ => .vnan

/-- JavaScript remainder with the sign of the dividend (a % b for b ≠ 0):
a - b * trunc(a / b). -/
def jsRem (a b : ℚ) : ℚ :=
  a - b * (truncQ (a / b) : ℚ)

/-- evaluateArithmetic's per-operator logic on the already-evaluated
operand values: divide and modulo return 0 outright when the right
value is (strictly equal to) the number 0, and otherwise behave as the
JavaScript operators (string concatenation for `+` on strings is
approximated as NaN; no claim touches it). -/
def applyArithmetic (op : ArithOp) (l r : Val) : Val :=
  match op with
  | .add => jsNumBin (fun a b => a + b) l r
  | .subtract => jsNumBin (fun a b => a - b) l r
  | .multiply => jsNumBin (fun a b => a * b) l r
  | .divide =>
    match r with
    | .vnum q => if q = 0 then .vnum 0 else jsNumBin (fun a b => a / b) l r
    | _ => jsNumBin (fun a b => a / b) l r
  | .modulo =>
    match r with
    | .vnum q => if q = 0 then .vnum 0 else jsNumBin jsRem l r
    | _ => jsNumBin jsRem l r

/-- Logical operators (LogicalOp.op). -/
inductive LogOp where
  | and | or | not
deriving DecidableEq, Repr

/-- Expression AST (tagged variants of the shared Expression type). -/
inductive Expression where
  | fieldRef (source field : String)
  | literal (stringValue : Option String) (integerValue : Option Int)
      (booleanValue : Option Bool)
  | comparison (op : CompOp) (left : Expression) (right : Option Expression)
  | logicalOp (op : LogOp) (operands : List Expression)
  | arithmeticOp (op : ArithOp) (left right : Expression)
  | builtinCall (name : String) (args : List Expression)
  | functionCall
  | caseExpression (branches : List (Expression × Expression))
      (elseValue : Option Expression)

/-- getNestedValue's inner drill loop: descend into nested objects,
returning undefined as soon as the current value is nullish or the
next part is missing (property access on primitives is approximated as
undefined). -/
def getNested (v : Val) (parts : List String) : Val :=
  match parts with
  | [] => v
  | p :: ps =>
    match v with
    | .vnull => .vundef
    | .vundef => .vundef
    | .vobj fields => getNested ((mapGet fields p).getD .vundef) ps
    | _ => getNested .vundef ps

/-- getNestedValue's longest-prefix strategy: for i from parts.length
down to 1 try the key made of the first i parts and drill into the
remaining parts on the first defined hit. -/
def tryPrefixes (row : Row) (parts : List String) : Nat → Val
  | 0 => .vundef
  | i + 1 =>
    match mapGet row (String.intercalate "." (parts.take (i + 1))) with
    | some v =>
      if v matches .vundef then tryPrefixes row parts i
      else getNested v (parts.drop (i + 1))
    | none => tryPrefixes row parts i

/-- getNestedValue. -/
def getNestedValue (row : Row) (path : String) : Val :=
  tryPrefixes row (path.splitOn ".") (path.splitOn ".").length

/-- The aggregate builtin names. -/
def AGGREGATES : List String := ["count", "sum", "avg", "min", "max"]

/-- True for null/undefined (the engine's nullish filter). -/
def isNullish (v : Val) : Bool :=
  match v with
  | .vnull => true
  | .vundef => true
  | _ => false

/-- View a group member as a row (group members are row objects). -/
def toRow (v : Val) : Row :=
  match v with
  | .vobj fields => fields
  | _ => []

/-- Sum of a value list under Number coercion where NaN poisons the
result (`none` = NaN). -/
def sumOpt (vs : List Val) : Option ℚ :=
  vs.foldl
    (fun acc v =>
      match acc, jsToNumber v with
      | some a, some b => some (a + b)
      | _, _ => none)
    (some 0)

/-- Aggregate count over a group: non-nullish values. -/
def aggCount (values : List Val) : Val :=
  .vnum ((values.filter (fun v => !isNullish v)).length : ℚ)

/-- Aggregate sum over a group: Number(b) || 0 turns NaN into 0. -/
def aggSum (values : List Val) : Val :=
  .vnum (values.foldl (fun a b => a + ((jsToNumber b).getD 0)) 0)

/-- Aggregate avg over a group: null on an empty bag, otherwise the
coerced sum over the count (NaN poisons). -/
def aggAvg (values : List Val) : Val :=
  let nums := values.filter (fun v => !isNullish v)
  if nums.length = 0 then .vnull
  else
    match sumOpt nums with
    | some s => .vnum (s / (nums.length : ℚ))
    | none => .vnan

/-- Aggregate min over a group (null on empty; NaN poisons). -/
def aggMin (values : List Val) : Val :=
  let nums := values.filter (fun v => !isNullish v)
  if nums.length = 0 then .vnull
  else
    match nums.mapM jsToNumber with
    | some qs => .vnum ((qs.foldl min (qs.headD 0)))
    | none => .vnan

/-- Aggregate max over a group (null on empty; NaN poisons). -/
def aggMax (values : List Val) : Val :=
  let nums := values.filter (fun v => !isNullish v)
  if nums.length = 0 then .vnull
  else
    match nums.mapM jsToNumber with
    | some qs => .vnum ((qs.foldl max (qs.headD 0)))
    | none => .vnan

/-- Dispatch of the five aggregate builtins over a group's value bag. -/
def aggApply (name : String) (values : List Val) : Val :=
  if name = "count" then aggCount values
  else if name = "sum" then aggSum values
  else if name = "avg" then aggAvg values
  else if name = "min" then aggMin values
  else aggMax values

/-- JavaScript String.prototype.substring with its clamp-to-range and
swap-when-reversed behaviour. -/
def jsSubstring (s : String) (a b : Int) : String :=
  let len : Int := (s.length : Int)
  let a' := min (max a 0) len
  let b' := min (max b 0) len
  let lo := min a' b'
  let hi := max a' b'
  String.mk ((s.toList.drop lo.toNat).take (hi - lo).toNat)

/-- The non-aggregate builtin dispatch over already-evaluated argument
values (evaluateBuiltin's lower switch).  Coercions follow the
approximations documented on `jsToNumber` / `jsToStringApprox`; an
unknown builtin name throws. -/
def applyBuiltinScalar (nowISO : String) (name : String) (args : List Val) :
    Except String Val :=
  let arg0 := (args.get? 0).getD .vundef
  let strArg := jsToStringApprox (if isNullish arg0 then .vstr "" else arg0)
  if name = "count" then
    .ok (match arg0 with
         | .varr l => .vnum (l.length : ℚ)
         | _ => .vnum 1)
  else if name = "sum" then
    .ok (match arg0 with
         | .varr l =>
           (match sumOpt l with
            | some s => .vnum s
            | none => .vnan)
         | v => v)
  else if name = "avg" then
    .ok (match arg0 with
         | .varr l =>
           (if l.length = 0 then .vnan
            else
              match sumOpt l with
              | some s => .vnum (s / (l.length : ℚ))
              | none => .vnan)
         | v => v)
  else if name = "min" then
    .ok (match arg0 with
         | .varr l =>
           (if l.length = 0 then .vnan
            else
              match l.mapM jsToNumber with
              | some qs => .vnum (qs.foldl min (qs.headD 0))
              | none => .vnan)
         | v => v)
  else if name = "max" then
    .ok (match arg0 with
         | .varr l =>
           (if l.length = 0 then .vnan
            else
              match l.mapM jsToNumber with
              | some qs => .vnum (qs.foldl max (qs.headD 0))
              | none => .vnan)
         | v => v)
  else if name = "concat" then
    .ok (.vstr (String.join (args.map jsToStringApprox)))
  else if name = "lower" then
    .ok (.vstr strArg.toLower)
  else if name = "upper" then
    .ok (.vstr strArg.toUpper)
  else if name = "trim" then
    .ok (.vstr strArg.trim)
  else if name = "length" then
    .ok (.vnum (strArg.length : ℚ))
  else if name = "coalesce" then
    .ok ((args.find? (fun a => !isNullish a)).getD .vnull)
  else if name = "now" then
    .ok (.vstr nowISO)
  else if name = "substring" then
    let start := ((jsToNumber ((args.get? 1).getD .vundef)).map truncQ).getD 0
    let stop :=
      match args.get? 2 with
      | some v =>
        if v matches .vundef then ((strArg.length : Int))
        else ((jsToNumber v).map truncQ).getD 0
      | none => ((strArg.length : Int))
    .ok (.vstr (jsSubstring strArg start stop))
  else if name = "abs" then
    .ok (match jsToNumber arg0 with
         | some q => .vnum |q|
         | none => .vnan)
  else if name = "round" then
    .ok (match jsToNumber arg0 with
         | some q => .vnum ((⌊q + 1/2⌋ : Int) : ℚ)
         | none => .vnan)
  else if name = "floor" then
    .ok (match jsToNumber arg0 with
         | some q => .vnum ((⌊q⌋ : Int) : ℚ)
         | none => .vnan)
  else if name = "ceil" then
    .ok (match jsToNumber arg0 with
         | some q => .vnum ((⌈q⌉ : Int) : ℚ)
         | none => .vnan)
  else
    .error ("Unknown builtin: " ++ name)

/-- QueryEngine.evaluateExpression: recursive expression evaluation over
a row and the request parameters.  `nowISO` is the evaluation-time
timestamp returned by the `now` builtin.  Throws (Except.error) exactly
where the source throws: function calls, `not` with no operand, unknown
builtin names, and aggregate evaluation over a malformed group bag. -/
def evaluateExpression (nowISO : String) (params : List (String × String))
    (expr : Expression) (row : Row) : Except String Val :=
  match expr with
  | .fieldRef source field =>
    if source = "$params" then
      .ok (match mapGet params field with
           | some s => .vstr s
           | none => .vundef)
    else
      .ok (getNestedValue row (source ++ "." ++ field))
  | .literal s i b =>
    .ok (match s with
         | some str => .vstr str
         | none =>
           match i with
           | some n => .vnum (n : ℚ)
           | none =>
             match b with
             | some bo => .vbool bo
             | none => .vnull)
  | .comparison op left right => do
    let l ← evaluateExpression nowISO params left row
    let r ← match right with
      | some re => evaluateExpression nowISO params re row
      | none => pure .vnull
    pure (.vbool (applyComparison op l r))
  | .logicalOp op operands =>
    match op with
    | .and => do
      let b ← operands.attach.allM (fun ⟨e, _⟩ => do
        let v ← evaluateExpression nowISO params e row
        pure (truthy v))
      pure (.vbool b)
    | .or => do
      let b ← operands.attach.anyM (fun ⟨e, _⟩ => do
        let v ← evaluateExpression nowISO params e row
        pure (truthy v))
      pure (.vbool b)
    | .not =>
      match operands with
      | e :: _ => do
        let v ← evaluateExpression nowISO params e row
        pure (.vbool (!truthy v))
      | [] => .error "TypeError: not with no operand"
  | .arithmeticOp op left right => do
    let l ← evaluateExpression nowISO params left row
    let r ← evaluateExpression nowISO params right row
    pure (applyArithmetic op l r)
  | .builtinCall name args =>
    (match mapGet row "_group" with
     | some g =>
       if truthy g && AGGREGATES.contains name then
         match g, args with
         | .varr groupVals, a :: _ => do
           let values ← groupVals.attach.mapM (fun ⟨gv, _⟩ =>
             evaluateExpression nowISO params a (toRow gv))
           pure (aggApply name values)
         | _, _ => .error "TypeError: malformed group aggregate"
       else do
         let argVals ← args.attach.mapM (fun ⟨a, _⟩ =>
           evaluateExpression nowISO params a row)
         applyBuiltinScalar nowISO name argVals
     | none => do
       let argVals ← args.attach.mapM (fun ⟨a, _⟩ =>
         evaluateExpression nowISO params a row)
       applyBuiltinScalar nowISO name argVals)
  | .functionCall =>
    .error "Function calls in expressions not yet supported in sync evaluation"
  | .caseExpression branches elseValue =>
    match branches with
    | [] =>
      match elseValue with
      | some e => evaluateExpression nowISO params e row
      | none => .ok .vnull
    | (w, t) :: rest => do
      let c ← evaluateExpression nowISO params w row
      if truthy c then evaluateExpression nowISO params t row
      else evaluateExpression nowISO params (.caseExpression rest elseValue) row
termination_by sizeOf expr

/-! ## Query planner (query planner source: QueryPlanner.plan) -/

/-- Source = alias + collection (+ optional authority). -/
structure Source where
  «alias» : String
  collection : String
  authorityId : Option String

/-- One declared join of the query AST. -/
structure JoinClause where
  joinType : String
  source : Source
  «on» : Expression

/-- One select field: output alias and its value expression. -/
structure SelectField where
  «alias» : String
  value : Expression

/-- One order-by clause. -/
structure OrderClause where
  value : Expression
  direction : String
  nulls : Option String

/-- Query root AST.  Optional list fields (`joins`, `groupBy`,
`orderBy`) conflate "absent" and "empty" — the planner guards them with
JavaScript truthiness of `length`, which identifies the two. -/
structure Query where
  select : List SelectField
  «from» : Source
  joins : List JoinClause
  «where» : Option Expression
  groupBy : List Expression
  having : Option Expression
  orderBy : List OrderClause
  limit : Option Int
  offset : Option Int
  distinct : Bool

/-- Pipeline steps produced by the planner. -/
inductive PipelineStep where
  | fetch («alias» : String)
  | join (joinType : String) («alias» : String) («on» : Expression)
  | filter (expression : Expression)
  | group (expressions : List Expression)
  | having (expression : Expression)
  | select (fields : List SelectField)
  | distinct
  | orderBy (clauses : List OrderClause)
  | limit (limit : Int) (offset : Option Int)

/-- Per-source plan entry. -/
structure SourcePlan where
  «alias» : String
  source : Source
  isJoined : Bool

/-- QueryPlan = sources + linear pipeline. -/
structure QueryPlan where
  sources : List SourcePlan
  pipeline : List PipelineStep

/-- QueryPlanner.plan: the canonical ordered pipeline — one fetch, one
join per declared join, optional filter / group / having, mandatory
select, optional distinct / orderBy, and a limit step exactly when
`query.limit` is truthy (present and non-zero). -/
def QueryPlanner.plan (query : Query) : QueryPlan :=
  let sources :=
    (⟨query.«from».«alias», query.«from», false⟩ : SourcePlan) ::
      query.joins.map (fun j => (⟨j.source.«alias», j.source, true⟩ : SourcePlan))
  let pipeline :=
    [PipelineStep.fetch query.«from».«alias»]
    ++ query.joins.map (fun j => PipelineStep.join j.joinType j.source.«alias» j.«on»)
    ++ (match query.«where» with
        | some w => [PipelineStep.filter w]
        | none => [])
    ++ (if query.groupBy.length ≠ 0 then [PipelineStep.group query.groupBy] else [])
    ++ (match query.having with
        | some h => [PipelineStep.having h]
        | none => [])
    ++ [PipelineStep.select query.select]
    ++ (if query.distinct then [PipelineStep.distinct] else [])
    ++ (if query.orderBy.length ≠ 0 then [PipelineStep.orderBy query.orderBy] else [])
    ++ (match query.limit with
        | some l => if l ≠ 0 then [PipelineStep.limit l query.offset] else []
        | none => [])
  ⟨sources, pipeline⟩

/-! ## Query engine pipeline (QueryEngine.executePlan and helpers) -/

/-- aliasRow: re-prefix every record field with "alias.". -/
def aliasRow (pfx : String) (row : Row) : Row :=
  row.map (fun kv => (pfx ++ "." ++ kv.1, kv.2))

/-- JavaScript object spread {...l, ...r}: fields of r overwrite fields
of l in place, new fields append. -/
def rowMerge (l r : Row) : Row :=
  r.foldl (fun acc kv => mapSet acc kv.1 kv.2) l

/-- Inner loop of performJoin for one left row: scan the indexed right
rows, evaluating the join predicate on each merged row; collect the
matches and the used right indices. -/
def innerMatches (evalOn : Row → Except String Bool) (l : Row) :
    List (Nat × Row) → Except String (List Row × List Nat)
  | [] => .ok ([], [])
  | (ri, r) :: rest => do
    let merged := rowMerge l r
    let b ← evalOn merged
    let (rows, used) ← innerMatches evalOn l rest
    if b then pure (merged :: rows, ri :: used) else pure (rows, used)

/-- Outer loop of performJoin: per left row, matched merges (or the bare
left row for an unmatched left join), accumulating used right indices. -/
def joinRows (evalOn : Row → Except String Bool) (joinType : String)
    (rightIdx : List (Nat × Row)) :
    List Row → Except String (List Row × List Nat)
  | [] => .ok ([], [])
  | l :: ls => do
    let (matched, used) ← innerMatches evalOn l rightIdx
    let (restRows, restUsed) ← joinRows evalOn joinType rightIdx ls
    let rows :=
      if matched.isEmpty ∧ joinType = "left" then l :: restRows
      else matched ++ restRows
    pure (rows, used ++ restUsed)

/-- performJoin: cross product, or the nested-loop inner/left/right
join; for right joins the unused right rows are appended bare. -/
def performJoin (evalOn : Row → Except String Bool) (left right : List Row)
    (joinType : String) : Except String (List Row) :=
  if joinType = "cross" then
    .ok (left.flatMap (fun l => right.map (fun r => rowMerge l r)))
  else do
    let rightIdx := right.enum
    let (rows, used) ← joinRows evalOn joinType rightIdx left
    if joinType = "right" then
      pure (rows ++ (rightIdx.filter (fun p => !used.contains p.1)).map Prod.snd)
    else
      pure rows

/-- performGroupBy's grouping pass: fold the rows into an insertion-
ordered map keyed by the serialised group key. -/
def buildGroups (evalKey : Row → Except String String) (rows : List Row) :
    Except String (List (String × List Row)) :=
  rows.foldlM
    (fun groups row => do
      let key ← evalKey row
      let group := (mapGet groups key).getD []
      pure (mapSet groups key (group ++ [row])))
    []

/-- The group key of one row: the serialised tuple of the group-by
expression values, joined with the "|||" separator. -/
def groupKeyFn (evalE : Expression → Row → Except String Val)
    (expressions : List Expression) (row : Row) : Except String String := do
  let parts ← expressions.mapM (fun e => do
    let v ← evalE e row
    pure (canonKey v))
  pure (String.intercalate "|||" parts)

/-- performGroupBy: group rows by the serialised tuple of key-expression
values; each output row is a copy of the group's first row with the
whole group attached under `_group`. -/
def performGroupBy (evalE : Expression → Row → Except String Val)
    (expressions : List Expression) (rows : List Row) :
    Except String (List Row) := do
  let groups ← buildGroups (groupKeyFn evalE expressions) rows
  pure (groups.map (fun kv =>
    match kv.2 with
    | g0 :: _ => mapSet g0 "_group" (.varr (kv.2.map Val.vobj))
    | [] => []))

/-- performDistinct's filter with its seen-set of serialised rows. -/
def distinctAux (seen : List String) : List Row → List Row
  | [] => []
  | row :: rest =>
    let key := canonVal (.vobj row)
    if seen.contains key then distinctAux seen rest
    else row :: distinctAux (key :: seen) rest

/-- performDistinct: deduplicate rows by canonical serialisation,
keeping first occurrences. -/
def performDistinct (rows : List Row) : List Row :=
  distinctAux [] rows

/-- One order-by clause's comparator on two already-evaluated key
values: nulls last by default or first on request; strings compare
lexicographically (localeCompare approximated); otherwise numeric
difference (a NaN difference is approximated as a tie); `desc` flips. -/
def ordCmp (clause : OrderClause) (a b : Val) : Int :=
  if isNullish a then
    if isNullish b then 0 else if clause.nulls = some "first" then -1 else 1
  else if isNullish b then
    if clause.nulls = some "first" then 1 else -1
  else
    let cmp : Int :=
      match a, b with
      | .vstr x, .vstr y => if x < y then -1 else if y < x then 1 else 0
      | _, _ =>
        match jsToNumber a, jsToNumber b with
        | some x, some y => if x < y then -1 else if y < x then 1 else 0
        | _, _ => 0
    if clause.direction = "desc" then -cmp else cmp

/-- Multi-key comparator: first non-tied clause decides. -/
def ordCmpList (clauses : List OrderClause) (ka kb : List Val) : Int :=
  match clauses, ka, kb with
  | c :: cs, a :: as_, b :: bs =>
    let r := ordCmp c a b
    if r ≠ 0 then r else ordCmpList cs as_ bs
  | _, _, _ => 0

/-- The evaluated order-by keys of one row, paired with the row. -/
def orderKeysFn (evalE : Expression → Row → Except String Val)
    (clauses : List OrderClause) (row : Row) :
    Except String (Row × List Val) := do
  let ks ← clauses.mapM (fun c => evalE c.value row)
  pure (row, ks)

/-- performOrderBy: stable sort of the rows under the multi-key
comparator (key expressions evaluated once per row; evaluation is pure
so this matches the source's in-comparator evaluation). -/
def performOrderBy (evalE : Expression → Row → Except String Val)
    (clauses : List OrderClause) (rows : List Row) :
    Except String (List Row) := do
  let keyed ← rows.mapM (orderKeysFn evalE clauses)
  pure ((keyed.mergeSort
    (fun x y => decide (ordCmpList clauses x.2 y.2 ≤ 0))).map Prod.fst)

/-- JavaScript Array.prototype.slice with negative-index wrapping and
clamping. -/
def jsSlice {α : Type} (l : List α) (start stop : Int) : List α :=
  let len : Int := (l.length : Int)
  let s := if start < 0 then max (len + start) 0 else min start len
  let e := if stop < 0 then max (len + stop) 0 else min stop len
  (l.drop s.toNat).take (e - s).toNat

/-- Row filter with a fallible predicate (filter / having steps). -/
def filterRows (p : Row → Except String Bool) :
    List Row → Except String (List Row)
  | [] => .ok []
  | row :: rest => do
    let b ← p row
    let rest' ← filterRows p rest
    pure (if b then row :: rest' else rest')

/-- Select-step projection: per row, build the output row of evaluated
select fields (duplicate aliases overwrite in place). -/
def selectRows (evalE : Expression → Row → Except String Val)
    (fields : List SelectField) :
    List Row → Except String (List Row)
  | [] => .ok []
  | row :: rest => do
    let out ← fields.foldlM
      (fun acc f => do
        let v ← evalE f.value row
        pure (mapSet acc f.«alias» v))
      ([] : Row)
    let rest' ← selectRows evalE fields rest
    pure (out :: rest')

/-- One pipeline step of QueryEngine.executePlan.  `fetchRecords` is the
DataSource adapter; fetched records are re-prefixed with the step's
alias.  (The engine also records each fetched dataset in a `datasets`
map that nothing reads; it is omitted.) -/
def runStep (nowISO : String) (params : List (String × String))
    (fetchRecords : Source → List Row) (sources : List SourcePlan)
    (rows : List Row) : PipelineStep → Except String (List Row)
  | .fetch a =>
    match sources.find? (fun s => s.«alias» == a) with
    | none => .error ("Unknown source: " ++ a)
    | some sp => .ok ((fetchRecords sp.source).map (aliasRow a))
  | .join joinType a onExpr =>
    match sources.find? (fun s => s.«alias» == a) with
    | none => .error ("Unknown source: " ++ a)
    | some sp =>
      let rightRows := (fetchRecords sp.source).map (aliasRow a)
      performJoin
        (fun merged => do
          let v ← evaluateExpression nowISO params onExpr merged
          pure (truthy v))
        rows rightRows joinType
  | .filter e =>
    filterRows
      (fun row => do
        let v ← evaluateExpression nowISO params e row
        pure (truthy v))
      rows
  | .group exprs =>
    performGroupBy (fun e row => evaluateExpression nowISO params e row) exprs rows
  | .having e =>
    filterRows
      (fun row => do
        let v ← evaluateExpression nowISO params e row
        pure (truthy v))
      rows
  | .select fields =>
    selectRows (fun e row => evaluateExpression nowISO params e row) fields rows
  | .distinct => .ok (performDistinct rows)
  | .orderBy clauses =>
    performOrderBy (fun e row => evaluateExpression nowISO params e row) clauses rows
  | .limit l off => .ok (jsSlice rows (off.getD 0) ((off.getD 0) + l))

/-- The executePlan pipeline fold: starting rows are empty. -/
def runPipeline (nowISO : String) (params : List (String × String))
    (fetchRecords : Source → List Row) (sources : List SourcePlan) :
    List PipelineStep → List Row → Except String (List Row)
  | [], rows => .ok rows
  | step :: rest, rows => do
    let rows' ← runStep nowISO params fetchRecords sources rows step
    runPipeline nowISO params fetchRecords sources rest rows'

/-- QueryEngine.executePlan. -/
def QueryEngine.executePlan (nowISO : String) (params : List (String × String))
    (fetchRecords : Source → List Row) (plan : QueryPlan) :
    Except String (List Row) :=
  runPipeline nowISO params fetchRecords plan.sources plan.pipeline []

/-- QueryEngine.execute on the non-cached path (no cacheTtl given):
plan the query and execute the plan. -/
def QueryEngine.execute (nowISO : String) (params : List (String × String))
    (fetchRecords : Source → List Row) (query : Query) :
    Except String (List Row) :=
  QueryEngine.executePlan nowISO params fetchRecords (QueryPlanner.plan query)

/-- True for the two pipeline steps that replace or enlarge the current
row set by pulling in source records (fetch and join); every other step
only filters, reshapes, reorders or truncates the current rows. -/
def stepFetchOrJoin : PipelineStep → Bool
  | .fetch _ => true
  | .join _ _ _ => true
  | _ => false

/-! ## Dependency graph and manifest
(src/packages/controller/src/deploy/dependency-graph.ts, manifest.ts) -/

/-- Dependency from the shared lexicon types: name, kind (one of
computed / function / searchIndex / subscription / collection),
optional resource ref, optional collection NSID. -/
structure Dependency where
  name : String
  kind : String
  ref : Option ResourceRef
  collection : Option String
deriving DecidableEq, Repr

/-- DependencyNode: a resolved resource node. -/
structure DependencyNode where
  ref : ResourceRef
  kind : String
  dependencies : List Dependency
deriving DecidableEq, Repr

/-- DeployedEndpoint from the shared lexicon types. -/
structure DeployedEndpoint where
  name : String
  kind : String
  ref : ResourceRef
deriving DecidableEq, Repr

/-- DependencyGraph: endpoints, node map keyed by refKey, and the
topological resolution order. -/
structure DependencyGraph where
  endpoints : List DeployedEndpoint
  nodes : List (String × DependencyNode)
  order : List String
deriving DecidableEq, Repr

/-- The dependency refs a node contributes to the BFS queue and to the
DFS: dependencies that carry a ref and are not collection-kind. -/
def depRefs (node : DependencyNode) : List ResourceRef :=
  node.dependencies.filterMap (fun dep =>
    match dep.ref with
    | some r => if dep.kind ≠ "collection" then some r else none
    | none => none)

/-- The BFS discovery loop of DependencyGraphBuilder.build.  The source
loop runs until the queue empties; an unbounded resolver can make it
run forever (each resolved node may enqueue fresh refs), so the model
takes explicit fuel — every theorem about the builder holds for every
fuel value.  Unresolvable refs are skipped (they surface in validate). -/
def bfs (resolveNode : ResourceRef → Option DependencyNode) :
    Nat → List ResourceRef → List String → List (String × DependencyNode) →
    List (String × DependencyNode)
  | 0, _, _, nodes => nodes
  | _ + 1, [], _, nodes => nodes
  | fuel + 1, ref :: queue, visited, nodes =>
    let key := refKey ref
    if visited.contains key then
      bfs resolveNode fuel queue visited nodes
    else
      match resolveNode ref with
      | none => bfs resolveNode fuel queue (key :: visited) nodes
      | some node =>
        bfs resolveNode fuel (queue ++ depRefs node) (key :: visited)
          (mapSet nodes key node)

/-- Monotone filters are no longer. -/
theorem filter_length_mono {α : Type} (p p' : α → Bool) (l : List α)
    (hmono : ∀ x, p' x = true → p x = true) :
    (l.filter p').length ≤ (l.filter p).length := by
  induction l with
  | nil => simp
  | cons a rest ih =>
    simp only [List.filter]
    rcases hp' : p' a with _ | _
    · rcases hp : p a with _ | _
      · exact ih
      · exact le_trans ih (by simp)
    · rw [hmono a hp']
      simpa using ih

/-- A filter strictly shrinks against a monotone weakening when some
list element witnesses the difference. -/
theorem filter_length_lt {α : Type} (p p' : α → Bool) (l : List α)
    (hmono : ∀ x, p' x = true → p x = true)
    (x : α) (hx : x ∈ l) (hpx : p x = true) (hpx' : p' x = false) :
    (l.filter p').length < (l.filter p).length := by
  induction l with
  | nil => cases hx
  | cons a rest ih =>
    rcases List.mem_cons.mp hx with rfl | hmem
    · simp only [List.filter, hpx, hpx']
      exact Nat.lt_succ_of_le (filter_length_mono p p' rest hmono)
    · simp only [List.filter]
      rcases hp' : p' a with _ | _
      · rcases hp : p a with _ | _
        · exact ih hmem
        · exact lt_of_lt_of_le (ih hmem) (by simp)
      · rw [hmono a hp']
        simpa using ih hmem

/-- A successful mapGet exhibits a list member. -/
theorem mapGet_mem {α : Type} :
    ∀ (m : List (String × α)) (k : String) (v : α),
      mapGet m k = some v → (k, v) ∈ m := by
  intro m
  induction m with
  | nil => intro k v h; cases h
  | cons kv rest ih =>
    intro k v h
    obtain ⟨k', v'⟩ := kv
    simp only [mapGet] at h
    split at h
    · rename_i heq
      cases h
      subst heq
      exact List.mem_cons_self _ _
    · exact List.mem_cons_of_mem _ (ih k v h)

/-- The three-colour DFS of DependencyGraphBuilder.build, at the level
of a work list: visit each key of `todo` in order against the shared
`temp` marking; `perm` is the permanent marking and `sorted` the output
order.  A key hits one of: already permanently marked (skip), on the
current path (cycle warning, skip), missing from the node map (mark and
emit), or resolvable (recurse into its dependency keys with the key
temp-marked, then mark and emit). -/
def visitT (nodes : List (String × DependencyNode)) :
    List String → List String → List String × List String →
    List String × List String
  | _, [], st => st
  | temp, k :: ks, (perm, sorted) =>
    if perm.contains k then
      visitT nodes temp ks (perm, sorted)
    else if temp.contains k then
      -- circular dependency: logged as a warning, sort continues
      visitT nodes temp ks (perm, sorted)
    else
      match hnode : mapGet nodes k with
      | none =>
        visitT nodes temp ks (k :: perm, sorted ++ [k])
      | some node =>
        let st := visitT nodes (k :: temp) ((depRefs node).map refKey) (perm, sorted)
        visitT nodes temp ks (k :: st.1, st.2 ++ [k])
termination_by temp todo _ =>
  ((nodes.filter (fun kv => !temp.contains kv.1)).length, todo.length)
decreasing_by
  · exact Prod.Lex.right _ (Nat.lt_succ_self _)
  · exact Prod.Lex.right _ (Nat.lt_succ_self _)
  · exact Prod.Lex.right _ (Nat.lt_succ_self _)
  · rename_i hperm htemp
    refine Prod.Lex.left _ _ ?_
    have hmem : (k, node) ∈ nodes := mapGet_mem nodes k node hnode
    refine filter_length_lt _ _ nodes ?_ (k, node) hmem ?_ ?_
    · intro x hx
      simp only [Bool.not_eq_true', List.contains_cons, Bool.or_eq_false_iff] at hx ⊢
      exact hx.2
    · simp only [Bool.not_eq_true']
      simpa using htemp
    · simp [List.contains_cons]
  · exact Prod.Lex.right _ (Nat.lt_succ_self _)

/-- DependencyGraphBuilder.build: BFS discovery from the endpoint refs,
then the three-colour DFS over every discovered node key. -/
def DependencyGraphBuilder.build (endpoints : List DeployedEndpoint)
    (resolveNode : ResourceRef → Option DependencyNode) (fuel : Nat) :
    DependencyGraph :=
  let nodes := bfs resolveNode fuel (endpoints.map DeployedEndpoint.ref) [] []
  let st := visitT nodes [] (nodes.map Prod.fst) ([], [])
  ⟨endpoints, nodes, st.2⟩

/-- DependencyGraphBuilder.validate: errors for endpoint refs missing
from the node map, non-collection dependency refs missing from the node
map, and collection dependencies without a (non-empty) collection NSID. -/
def DependencyGraphBuilder.validate (graph : DependencyGraph) : List String :=
  (graph.endpoints.filterMap (fun endpoint =>
    if (mapGet graph.nodes (refKey endpoint.ref)).isNone then
      some ("Endpoint " ++ endpoint.name ++ " references unknown resource "
        ++ refKey endpoint.ref)
    else none))
  ++ (graph.nodes.flatMap (fun kv =>
      kv.2.dependencies.flatMap (fun dep =>
        (match dep.ref with
         | some r =>
           if dep.kind ≠ "collection" ∧ (mapGet graph.nodes (refKey r)).isNone then
             ["Node " ++ kv.1 ++ " depends on unresolved resource " ++ refKey r]
           else []
         | none => [])
        ++ (if dep.kind = "collection" ∧ dep.collection.getD "" = "" then
             ["Node " ++ kv.1 ++ " has collection dependency " ++ dep.name
               ++ " without collection NSID"]
           else []))))

/-- ResolvedResource.  The source's code-blob lookup reads
`node.record?.code?.ref?.$link`, but DependencyNode has no `record`
field, so the code ref is always undefined and `codeBlob` is never
populated; the blob fetch is also wrapped in a try/catch, so it can
never fail the build. -/
structure ResolvedResource where
  ref : ResourceRef
  kind : String
  record : DependencyNode
  dependencies : List Dependency
  codeBlob : Option (List Nat)
deriving DecidableEq, Repr

/-- One iteration of the resource-resolution loop of
ManifestBuilder.build: skip a key without a node, otherwise record the
resolved resource under the key. -/
def resolveStep (nodes : List (String × DependencyNode))
    (resources : List (String × ResolvedResource)) (key : String) :
    List (String × ResolvedResource) :=
  match mapGet nodes key with
  | none => resources
  | some node =>
    mapSet resources key
      { ref := node.ref, kind := node.kind, record := node,
        dependencies := node.dependencies, codeBlob := none }

/-- The resource-resolution loop of ManifestBuilder.build: walk the
topological order. -/
def resolveResources (nodes : List (String × DependencyNode))
    (order : List String) : List (String × ResolvedResource) :=
  order.foldl (resolveStep nodes) []

/-- DeployRecord from the shared lexicon types. -/
structure DeployRecord where
  version : Option String
  description : Option String
  endpoints : List DeployedEndpoint
  createdAt : String
deriving DecidableEq, Repr

/-- DeployManifest.  `resolvedAt` is the build-time timestamp. -/
structure DeployManifest where
  deployRef : ResourceRef
  version : Option String
  endpoints : List DeployedEndpoint
  resources : List (String × ResolvedResource)
  resolvedAt : Nat
deriving DecidableEq, Repr

/-- ManifestBuilder.build: build the dependency graph, validate it
(throwing a DeployValidationError that joins all reasons), then resolve
every node in topological order into the manifest's resource map. -/
def ManifestBuilder.build (deployRef : ResourceRef) (deployRecord : DeployRecord)
    (nodeResolver : ResourceRef → Option DependencyNode) (fuel : Nat)
    (resolvedAt : Nat) : Except String DeployManifest :=
  -- const graph = build(record.endpoints, nodeResolver); const errors = validate(graph)
  if (DependencyGraphBuilder.validate
      (DependencyGraphBuilder.build deployRecord.endpoints nodeResolver fuel)).length
      > 0 then
    .error ("Deploy validation failed:\n" ++ String.intercalate "\n"
      (DependencyGraphBuilder.validate
        (DependencyGraphBuilder.build deployRecord.endpoints nodeResolver fuel)))
  else
    .ok { deployRef := deployRef, version := deployRecord.version,
          endpoints := deployRecord.endpoints,
          resources := resolveResources
            (DependencyGraphBuilder.build deployRecord.endpoints nodeResolver fuel).nodes
            (DependencyGraphBuilder.build deployRecord.endpoints nodeResolver fuel).order,
          resolvedAt := resolvedAt }

/-! ## Deploy orchestrator (src/packages/controller/src/deploy/orchestrator.ts) -/

/-- DeployState from the shared deploy types. -/
inductive DeployState where
  | PENDING
  | FETCHING
  | RESOLVING
  | BUILDING
  | ACTIVATING
  | ACTIVE
  | DRAINING
  | RETIRED
  | FAILED
deriving DecidableEq, Repr

/-- DeployStatus from the shared deploy types.  Timestamps are the
explicit clock values at which the fields were written. -/
structure DeployStatus where
  ref : ResourceRef
  state : DeployState
  manifest : Option DeployManifest
  error : Option String
  activatedAt : Option Nat
  retiredAt : Option Nat
deriving DecidableEq, Repr

/-- The orchestrator's `deploys` map, keyed by refKey in insertion
order. -/
abbrev Deploys : Type := List (String × DeployStatus)

/-- DeployOrchestrator.setState: look up (or create) the status for the
ref, then set the state, record the manifest when given, and stamp
activatedAt / retiredAt on ACTIVE / RETIRED.  The source performs these
as successive mutations on one status object; the net record update is
written in one step.  No guard consults the previous state. -/
def setState (deploys : Deploys) (ref : ResourceRef) (state : DeployState)
    (manifest : Option DeployManifest) (now : Nat) : Deploys :=
  let key := refKey ref
  let base := (mapGet deploys key).getD
    { ref := ref, state := state, manifest := none, error := none,
      activatedAt := none, retiredAt := none }
  mapSet deploys key
    { base with
        state := state,
        manifest := (match manifest with
          | some m => some m
          | none => base.manifest),
        activatedAt := (if state = .ACTIVE then some now else base.activatedAt),
        retiredAt := (if state = .RETIRED then some now else base.retiredAt) }

/-- The catch branch of processDeploy: if a status exists for the ref,
set its state to FAILED and record the error message (no status is
created when none exists). -/
def setFailed (deploys : Deploys) (ref : ResourceRef) (msg : String) : Deploys :=
  match mapGet deploys (refKey ref) with
  | none => deploys
  | some st =>
    mapSet deploys (refKey ref) { st with state := .FAILED, error := some msg }

/-- getActiveDeploys: the map's values, in insertion order, filtered to
state ACTIVE. -/
def activeDeploys (deploys : Deploys) : List DeployStatus :=
  (deploys.map Prod.snd).filter (fun d => d.state = .ACTIVE)

/-- Number of deploys currently in state ACTIVE. -/
def countActive (deploys : Deploys) : Nat :=
  (activeDeploys deploys).length

/-- The sequence of map states produced by one processDeploy call (one
entry per setState / catch mutation), paired with the final state.
`buildResult` stands for the awaited ManifestBuilder.build outcome;
`maxActive` is options.maxActiveDeploys ?? 2; `now` is the clock at the
start of the call, advancing by one per mutation. -/
def processDeploySteps (deploys : Deploys) (ref : ResourceRef)
    (buildResult : Except String DeployManifest) (maxActive : Nat)
    (now : Nat) : List Deploys × Deploys :=
  let s1 := setState deploys ref .PENDING none now
  let s2 := setState s1 ref .FETCHING none (now + 1)
  let s3 := setState s2 ref .RESOLVING none (now + 2)
  let s4 := setState s3 ref .BUILDING none (now + 3)
  match buildResult with
  | .error msg =>
    let s5 := setFailed s4 ref msg
    ([s1, s2, s3, s4, s5], s5)
  | .ok manifest =>
    let s5 := setState s4 ref .ACTIVATING (some manifest) (now + 4)
    if countActive s5 ≥ maxActive then
      match activeDeploys s5 with
      | oldest :: _ =>
        let s6 := setState s5 oldest.ref .DRAINING none (now + 5)
        let s7 := setState s6 ref .ACTIVE (some manifest) (now + 6)
        ([s1, s2, s3, s4, s5, s6, s7], s7)
      | [] =>
        -- activeDeploys[0] is undefined; `if (oldest)` skips the drain
        let s6 := setState s5 ref .ACTIVE (some manifest) (now + 5)
        ([s1, s2, s3, s4, s5, s6], s6)
    else
      let s6 := setState s5 ref .ACTIVE (some manifest) (now + 5)
      ([s1, s2, s3, s4, s5, s6], s6)

/-- The sequence of map states produced by one retireDeploy call. -/
def retireDeploySteps (deploys : Deploys) (ref : ResourceRef) (now : Nat) :
    List Deploys × Deploys :=
  let s1 := setState deploys ref .DRAINING none now
  let s2 := setState s1 ref .RETIRED none (now + 1)
  ([s1, s2], s2)

/-- One orchestrator operation: a processDeploy call (with the outcome
of its manifest build) or a retireDeploy call. -/
inductive DeployOp where
  | process (ref : ResourceRef) (buildResult : Except String DeployManifest)
  | retire (ref : ResourceRef)

/-- The micro-states and final state of one operation. -/
def opSteps (maxActive : Nat) (deploys : Deploys) (now : Nat) :
    DeployOp → List Deploys × Deploys
  | .process ref buildResult =>
    processDeploySteps deploys ref buildResult maxActive now
  | .retire ref => retireDeploySteps deploys ref now

/-- All intermediate map states (after every mutation) of a run of
operations, starting from `deploys` at clock `now`. -/
def runOpsMicro (maxActive : Nat) : List DeployOp → Deploys → Nat → List Deploys
  | [], _, _ => []
  | op :: rest, deploys, now =>
    (opSteps maxActive deploys now op).1
      ++ runOpsMicro maxActive rest (opSteps maxActive deploys now op).2 (now + 8)

/-- The state of one deploy key in a map state. -/
def stateOf (deploys : Deploys) (key : String) : Option DeployState :=
  (mapGet deploys key).map DeployStatus.state

/-- Position of a state along the §4.G chain; FAILED sits above RETIRED
so that "FAILED from any state" is forward. -/
def rank : DeployState → Nat
  | .PENDING => 0
  | .FETCHING => 1
  | .RESOLVING => 2
  | .BUILDING => 3
  | .ACTIVATING => 4
  | .ACTIVE => 5
  | .DRAINING => 6
  | .RETIRED => 7
  | .FAILED => 8

/-- Forward motion on optional states: a key may appear (none before),
and an existing state may only move weakly forward in rank. -/
def optLe : Option DeployState → Option DeployState → Prop
  | none, _ => True
  | some _, none => False
  | some a, some b => rank a ≤ rank b

instance : DecidableRel optLe := fun a b =>
  match a, b with
  | none, _ => .isTrue trivial
  | some _, none => .isFalse (fun h => h)
  | some x, some y => inferInstanceAs (Decidable (rank x ≤ rank y))

/-- One micro-step respects the claim: the key's state moves forward,
and a key in RETIRED or FAILED does not change at all. -/
def stepOk (a b : Option DeployState) : Prop :=
  optLe a b ∧ ((a = some .RETIRED ∨ a = some .FAILED) → b = a)

/-- Map-state well-formedness maintained by the orchestrator: keys are
unique and each binding's key is the refKey of its status's ref. -/
def OrchInv (deploys : Deploys) : Prop :=
  (deploys.map Prod.fst).Nodup ∧ ∀ p ∈ deploys, p.1 = refKey p.2.ref

/-- Operation preconditions of the amended C1: processDeploy only for
refs the orchestrator is not yet tracking, retireDeploy only for refs
not currently RETIRED or FAILED. -/
def precOk (deploys : Deploys) : DeployOp → Prop
  | .process ref _ => mapGet deploys (refKey ref) = none
  | .retire ref =>
    stateOf deploys (refKey ref) ≠ some .RETIRED ∧
      stateOf deploys (refKey ref) ≠ some .FAILED

/-- A run is valid when every operation's precondition holds in the
state in which it executes. -/
def ValidFrom (maxActive : Nat) : Deploys → Nat → List DeployOp → Prop
  | _, _, [] => True
  | deploys, now, op :: rest =>
    precOk deploys op ∧
      ValidFrom maxActive (opSteps maxActive deploys now op).2 (now + 8) rest

instance (a b : Option DeployState) : Decidable (stepOk a b) :=
  inferInstanceAs (Decidable (_ ∧ _))

instance (deploys : Deploys) : Decidable (OrchInv deploys) :=
  inferInstanceAs (Decidable (_ ∧ _))

instance (deploys : Deploys) (op : DeployOp) : Decidable (precOk deploys op) :=
  match op with
  | .process ref _ =>
    inferInstanceAs (Decidable (mapGet deploys (refKey ref) = none))
  | .retire ref =>
    inferInstanceAs (Decidable (_ ∧ _))

instance decValidFrom (K : Nat) : (deploys : Deploys) → (now : Nat) →
    (ops : List DeployOp) → Decidable (ValidFrom K deploys now ops)
  | _, _, [] => .isTrue trivial
  | d, n, op :: rest =>
    have : Decidable (ValidFrom K (opSteps K d n op).2 (n + 8) rest) :=
      decValidFrom K _ _ rest
    inferInstanceAs (Decidable (_ ∧ _))

theorem stepOk_refl (a : Option DeployState) : stepOk a a :=
  ⟨by cases a <;> simp [optLe], fun _ => rfl⟩

theorem stepOk_trans {a b c : Option DeployState}
    (h1 : stepOk a b) (h2 : stepOk b c) : stepOk a c := by
  obtain ⟨l1, t1⟩ := h1
  obtain ⟨l2, t2⟩ := h2
  refine ⟨?_, ?_⟩
  · cases a <;> cases b <;> cases c <;> simp [optLe] at * <;> omega
  · intro ht
    have hb : b = a := t1 ht
    have hc : c = b := t2 (by rw [hb]; exact ht)
    rw [hc, hb]

instance : IsTrans (Option DeployState) stepOk :=
  ⟨fun _ _ _ => stepOk_trans⟩

/-- The final map state of a run of operations. -/
def runOps (maxActive : Nat) : List DeployOp → Deploys → Nat → Deploys
  | [], deploys, _ => deploys
  | op :: rest, deploys, now =>
    runOps maxActive rest (opSteps maxActive deploys now op).2 (now + 8)

/-- The map state of processDeploy just after the ACTIVATING step
(the state in which getActiveDeploys is consulted for the drain). -/
def afterActivating (deploys : Deploys) (ref : ResourceRef)
    (manifest : DeployManifest) (now : Nat) : Deploys :=
  setState
    (setState
      (setState
        (setState (setState deploys ref .PENDING none now)
          ref .FETCHING none (now + 1))
        ref .RESOLVING none (now + 2))
      ref .BUILDING none (now + 3))
    ref .ACTIVATING (some manifest) (now + 4)

/-- Concrete refs and a trivial manifest for closed runs of the
orchestrator. -/
def refA : ResourceRef := { did := "did:a", cid := "ca" }

def refB : ResourceRef := { did := "did:b", cid := "cb" }

def refC : ResourceRef := { did := "did:c", cid := "cc" }

def mTriv : DeployManifest :=
  { deployRef := refA, version := none, endpoints := [],
    resources := [], resolvedAt := 0 }

/-- Operation sequence under which, with maxActiveDeploys = 2, the
drained deploy is not the oldest-activated ACTIVE one: re-processing A
refreshes its activatedAt past B's, yet the drain on processing C picks
A (the first ACTIVE in the map's insertion order). -/
def opsC2 : List DeployOp :=
  [.process refA (.ok mTriv), .process refB (.ok mTriv),
   .process refA (.ok mTriv), .process refC (.ok mTriv)]

/-! ## Theorems: C7, C3, C4 -/

/-- C7: QueryCache.get returns the stored value iff an entry for the key
exists, its expiry has not passed, and its version equals the requested
version; an expired entry or a version mismatch removes the entry and
misses; a miss on an absent key leaves the cache unchanged. -/
theorem C7_queryCache_get_spec {V : Type} (cache : List (String × CacheEntry V))
    (key version : String) (now : Int) :
    (∀ v : V, (QueryCache.get cache key version now).1 = some v ↔
      ∃ e, mapGet cache key = some e ∧ ¬ e.expiresAt < now ∧
        e.version = version ∧ e.value = v)
    ∧ (∀ e, mapGet cache key = some e → e.expiresAt < now ∨ e.version ≠ version →
        QueryCache.get cache key version now = (none, mapDelete cache key))
    ∧ (∀ e, mapGet cache key = some e → ¬ e.expiresAt < now → e.version = version →
        QueryCache.get cache key version now = (some e.value, cache))
    ∧ (mapGet cache key = none →
        QueryCache.get cache key version now = (none, cache)) := by
  unfold QueryCache.get
  rcases h : mapGet cache key with _ | e
  · exact ⟨fun v => by simp, fun e he => by simp_all, fun e he => by simp_all,
      fun _ => rfl⟩
  · refine ⟨fun v => ?_, fun e' he' hbad => ?_, fun e' he' hne hv => ?_, by simp⟩
    · constructor
      · intro hv
        refine ⟨e, rfl, ?_, ?_, ?_⟩ <;>
          [skip; skip; skip] <;> by_cases hexp : e.expiresAt < now <;>
          by_cases hver : e.version = version <;> simp_all
      · rintro ⟨e', he', hexp, hver, hval⟩
        cases he'
        simp [if_neg hexp, hver, hval]
    · cases he'
      rcases hbad with hexp | hver
      · simp [if_pos hexp]
      · by_cases hexp : e.expiresAt < now
        · simp [if_pos hexp]
        · simp [if_neg hexp, if_pos hver]
    · cases he'
      simp [if_neg hne, hv]

/-- C3 counterexample: a non-empty rule list whose weights sum to exactly
10000 (weights 10001 and -1) is nonetheless rejected by updateRules, so
"a rule list whose weights sum to exactly 10000 is accepted" is false. -/
theorem C3_sum10000_rejected :
    ([(⟨⟨"did:plc:a", "c1"⟩, 10001⟩ : TrafficRule), ⟨⟨"did:plc:b", "c2"⟩, -1⟩].foldl
        (fun sum r => sum + r.weight) 0 = 10000)
    ∧ TrafficShaper.updateRules
        [(⟨⟨"did:plc:a", "c1"⟩, 10001⟩ : TrafficRule), ⟨⟨"did:plc:b", "c2"⟩, -1⟩]
      = .error "Traffic rule weight must be between 0 and 10000" := by
  constructor
  · rfl
  · rfl

/-- C3 (amended): updateRules rejects (throws, and the stored rules a
caller keeps on the throw are unchanged, so subsequent selectDeploy calls
behave identically) every non-empty rule list whose weights do not sum to
exactly 10000 or that contains a weight outside [0, 10000]; a non-empty
rule list is accepted iff its weights sum to exactly 10000 and every
weight lies in [0, 10000]; updateRules [] clears the rules. -/
theorem C3_updateRules_spec (stored rules : List TrafficRule) :
    (rules ≠ [] →
      ((∃ newRules, TrafficShaper.updateRules rules = .ok newRules) ↔
        rules.foldl (fun sum r => sum + r.weight) 0 = TOTAL_BASIS_POINTS ∧
          ∀ r ∈ rules, 0 ≤ r.weight ∧ r.weight ≤ TOTAL_BASIS_POINTS))
    ∧ TrafficShaper.updateRules [] = .ok []
    ∧ (∀ key, (∃ e, TrafficShaper.updateRules rules = .error e) →
        runShaperOps stored [.update rules] = stored ∧
        TrafficShaper.selectDeploy (runShaperOps stored [.update rules]) key
          = TrafficShaper.selectDeploy stored key) := by
  refine ⟨fun hne => ?_, rfl, fun key ⟨e, he⟩ => ?_⟩
  · constructor
    · rintro ⟨newRules, h⟩
      unfold TrafficShaper.updateRules at h
      rw [if_neg (by simpa using hne)] at h
      split at h
      · cases h
      · rename_i hsum
        split at h
        · cases h
        · rename_i hfind
          rw [List.find?_eq_none] at hfind
          refine ⟨by simpa using hsum, fun r hr => ?_⟩
          have := hfind r hr
          simp only [Bool.or_eq_true, decide_eq_true_eq, not_or, not_lt] at this
          exact ⟨this.1, this.2⟩
    · rintro ⟨hsum, hall⟩
      unfold TrafficShaper.updateRules
      rw [if_neg (by simpa using hne)]
      rw [if_neg (not_not_intro hsum)]
      split
      · rename_i r hfind
        have hrmem := List.mem_of_find?_eq_some hfind
        have hrprop := List.find?_some hfind
        simp only [Bool.or_eq_true, decide_eq_true_eq] at hrprop
        have := hall r hrmem
        exfalso
        rcases hrprop with hlo | hhi
        · exact absurd hlo (not_lt.mpr this.1)
        · exact absurd hhi (not_lt.mpr this.2)
      · exact ⟨sortRulesDesc rules, rfl⟩
  · have hrun : runShaperOps stored [.update rules] = stored := by
      simp [runShaperOps, applyShaperOp, he]
    exact ⟨hrun, by rw [hrun]⟩

/-- C4: sticky selection is deterministic across the lifetime of a rule
set: as long as every intervening operation is a sticky select or a
rejected updateRules call, selectDeploy with the same sticky key returns
the same deploy ref; the key is hashed into [0, 10000). -/
theorem C4_selectDeploy_sticky_deterministic (stored : List TrafficRule)
    (ops : List ShaperOp) (key : List Nat)
    (hLifetime : ops.all preservesRules = true) :
    TrafficShaper.selectDeploy (runShaperOps stored ops) key
      = TrafficShaper.selectDeploy stored key
    ∧ hashToRange key < 10000 := by
  constructor
  · have hsame : runShaperOps stored ops = stored := by
      induction ops generalizing stored with
      | nil => rfl
      | cons op rest ih =>
        rw [List.all_cons, Bool.and_eq_true] at hLifetime
        have hop : applyShaperOp stored op = stored := by
          cases op with
          | update rules =>
            have hpres := hLifetime.1
            rcases h : TrafficShaper.updateRules rules with e | nr
            · simp [applyShaperOp, h]
            · exfalso
              simp [preservesRules, h, Except.isOk, Except.toBool] at hpres
          | select _ => rfl
        show runShaperOps (applyShaperOp stored op) rest = stored
        rw [hop]
        exact ih stored hLifetime.2
    rw [hsame]
  · exact Nat.mod_lt _ (by norm_num)

/-- C4 witness: a concrete lifetime (one rejected update, one select)
over a concrete two-rule set and sticky key. -/
theorem C4_witness :
    TrafficShaper.selectDeploy
        (runShaperOps
          [(⟨⟨"did:plc:a", "c1"⟩, 7000⟩ : TrafficRule), ⟨⟨"did:plc:b", "c2"⟩, 3000⟩]
          [.update [⟨⟨"did:plc:c", "c3"⟩, 5000⟩], .select [100, 101]])
        [100, 101]
      = TrafficShaper.selectDeploy
          [(⟨⟨"did:plc:a", "c1"⟩, 7000⟩ : TrafficRule), ⟨⟨"did:plc:b", "c2"⟩, 3000⟩]
          [100, 101]
    ∧ hashToRange [100, 101] < 10000 :=
  C4_selectDeploy_sticky_deterministic
    [(⟨⟨"did:plc:a", "c1"⟩, 7000⟩ : TrafficRule), ⟨⟨"did:plc:b", "c2"⟩, 3000⟩]
    [.update [⟨⟨"did:plc:c", "c3"⟩, 5000⟩], .select [100, 101]]
    [100, 101] (by decide)

/-- C10: extractAuth is total and never throws: its result is either an
authenticated context carrying a did:-prefixed string, or the anonymous
context with no did; and it is authenticated exactly when the header has
the shape "Bearer token", the token decodes to a payload, and the
payload's `iss ?? sub` claim is a string starting with "did:". -/
theorem C10_extractAuth_total_spec
    (decodeB64Json : String → Except String JwtPayload)
    (authHeader : Option String) :
    ((∃ d, extractAuth decodeB64Json authHeader = ⟨some d, true⟩ ∧
        d.startsWith "did:" = true)
      ∨ extractAuth decodeB64Json authHeader = ⟨none, false⟩)
    ∧ (∀ d, extractAuth decodeB64Json authHeader = ⟨some d, true⟩ ↔
        ∃ header token payload,
          authHeader = some header ∧
          header.splitOn " " = ["Bearer", token] ∧
          decodeJwtPayload decodeB64Json token = .ok payload ∧
          jsCoalesce payload.iss payload.sub = .str d ∧
          d.startsWith "did:" = true) := by
  cases authHeader with
  | none => simp [extractAuth]
  | some header =>
    rcases hsplit : header.splitOn " " with _ | ⟨p0, _ | ⟨token, _ | ⟨x, rest⟩⟩⟩
    · simp [extractAuth, hsplit]
    · simp [extractAuth, hsplit]
    · by_cases hp0 : p0 = "Bearer"
      · subst hp0
        rcases hdec : decodeJwtPayload decodeB64Json token with e | payload
        · simp [extractAuth, hsplit, hdec]
        · rcases hco : jsCoalesce payload.iss payload.sub with _ | _ | d | _
          · simp [extractAuth, hsplit, hdec, hco]
          · simp [extractAuth, hsplit, hdec, hco]
          · by_cases hdid : d.startsWith "did:" = true
            · constructor
              · exact Or.inl ⟨d, by simp [extractAuth, hsplit, hdec, hco, hdid], hdid⟩
              · intro d'
                constructor
                · intro h
                  simp [extractAuth, hsplit, hdec, hco, hdid] at h
                  exact ⟨header, token, payload, rfl, hsplit, hdec, by rw [hco, h],
                    h ▸ hdid⟩
                · rintro ⟨header', token', payload', hh, hsp, hdc, hcs, hsw⟩
                  cases hh
                  rw [hsplit] at hsp
                  cases hsp
                  rw [hdec] at hdc
                  cases hdc
                  rw [hco] at hcs
                  cases hcs
                  simp [extractAuth, hsplit, hdec, hco, hdid]
            · constructor
              · exact Or.inr (by simp [extractAuth, hsplit, hdec, hco, hdid])
              · intro d'
                constructor
                · intro h
                  simp [extractAuth, hsplit, hdec, hco, hdid] at h
                · rintro ⟨header', token', payload', hh, hsp, hdc, hcs, hsw⟩
                  cases hh
                  rw [hsplit] at hsp
                  cases hsp
                  rw [hdec] at hdc
                  cases hdc
                  rw [hco] at hcs
                  cases hcs
                  exact absurd hsw hdid
          · simp [extractAuth, hsplit, hdec, hco]
      · simp [extractAuth, hsplit, hp0]
    · simp [extractAuth, hsplit]

/-- Reduction of Except bind on a success value. -/
theorem except_bind_ok {α β : Type} (a : α) (f : α → Except String β) :
    (Except.ok a >>= f : Except String β) = f a := rfl

/-- Reduction of Except bind on a thrown error. -/
theorem except_bind_error {α β : Type} (e : String) (f : α → Except String β) :
    (Except.error e >>= f : Except String β) = Except.error e := rfl

/-- C5 counterexample: in `evaluateArithmetic` the left operand is
evaluated before the zero check on the right, so a divide expression
whose right operand evaluates to 0 but whose left operand is a function
call raises the function-call error instead of evaluating to 0. -/
theorem C5_divide_left_error_counterexample :
    evaluateExpression "" [] (.literal none (some 0) none) [] = .ok (.vnum 0)
    ∧ evaluateExpression "" []
        (.arithmeticOp .divide .functionCall (.literal none (some 0) none)) [] =
      .error "Function calls in expressions not yet supported in sync evaluation" := by
  constructor
  · simp [evaluateExpression]
  · simp [evaluateExpression, except_bind_error]

/-- C5 (amended): for every divide or modulo ArithmeticOp expression,
row and parameter map, if the left operand evaluates without error and
the right operand evaluates to the number 0, then the whole expression
evaluates to 0 (no error, no infinity or NaN). -/
theorem C5_arith_zero_divisor (nowISO : String) (params : List (String × String))
    (op : ArithOp) (left right : Expression) (row : Row)
    (hop : op = ArithOp.divide ∨ op = ArithOp.modulo) (l : Val)
    (hl : evaluateExpression nowISO params left row = .ok l)
    (hr : evaluateExpression nowISO params right row = .ok (.vnum 0)) :
    evaluateExpression nowISO params (.arithmeticOp op left right) row =
      .ok (.vnum 0) := by
  rw [evaluateExpression]
  rw [hl, except_bind_ok, hr, except_bind_ok]
  rcases hop with h | h <;> subst h <;> simp [applyArithmetic] <;> rfl

/-- C9: a query whose limit field is 0 plans exactly like a query with
no limit field (the limit/offset clause is dropped, so execution
returns the full result set rather than zero rows), and a limit step is
emitted exactly for queries whose limit is present and non-zero. -/
theorem C9_plan_limit_zero_dropped (q : Query) (nowISO : String)
    (params : List (String × String)) (fetchRecords : Source → List Row) :
    QueryPlanner.plan { q with limit := some 0 } =
      QueryPlanner.plan { q with limit := none }
    ∧ ((∃ l off, PipelineStep.limit l off ∈ (QueryPlanner.plan q).pipeline) ↔
        ∃ l, q.limit = some l ∧ l ≠ 0)
    ∧ QueryEngine.execute nowISO params fetchRecords { q with limit := some 0 }
      = QueryEngine.execute nowISO params fetchRecords { q with limit := none } := by
  obtain ⟨sel, frm, joins, whr, gb, hav, ob, lim, off, dist⟩ := q
  have hplan : QueryPlanner.plan
        { select := sel, «from» := frm, joins := joins, «where» := whr,
          groupBy := gb, having := hav, orderBy := ob, limit := some 0,
          offset := off, distinct := dist } =
      QueryPlanner.plan
        { select := sel, «from» := frm, joins := joins, «where» := whr,
          groupBy := gb, having := hav, orderBy := ob, limit := none,
          offset := off, distinct := dist } := by
    simp [QueryPlanner.plan]
  refine ⟨hplan, ?_, ?_⟩
  · rcases lim with _ | l
    · rcases whr with _ | w <;> rcases hav with _ | h <;> rcases dist <;>
        by_cases hgb : (gb : List Expression).length ≠ 0 <;>
        by_cases hob : (ob : List OrderClause).length ≠ 0 <;>
        simp [QueryPlanner.plan, hgb, hob]
    · by_cases hl0 : l = 0
      · subst hl0
        rcases whr with _ | w <;> rcases hav with _ | h <;> rcases dist <;>
          by_cases hgb : (gb : List Expression).length ≠ 0 <;>
          by_cases hob : (ob : List OrderClause).length ≠ 0 <;>
          simp [QueryPlanner.plan, hgb, hob]
      · rcases whr with _ | w <;> rcases hav with _ | h <;> rcases dist <;>
          by_cases hgb : (gb : List Expression).length ≠ 0 <;>
          by_cases hob : (ob : List OrderClause).length ≠ 0 <;>
          simp [QueryPlanner.plan, hgb, hob, hl0]
  · show QueryEngine.executePlan _ _ _ _ = QueryEngine.executePlan _ _ _ _
    rw [hplan]

/-- C5 witness: 6 / 0 evaluates to 0. -/
theorem C5_witness :
    evaluateExpression "" []
        (.arithmeticOp .divide (.literal none (some 6) none)
          (.literal none (some 0) none)) [] = .ok (.vnum 0) :=
  C5_arith_zero_divisor "" [] .divide (.literal none (some 6) none)
    (.literal none (some 0) none) [] (Or.inl rfl) (.vnum 6)
    (by simp [evaluateExpression]) (by simp [evaluateExpression])

/-! ## Row-count lemmas for the pipeline steps (toward C6) -/

/-- filterRows never increases the row count. -/
theorem filterRows_length_le (p : Row → Except String Bool) :
    ∀ rows out, filterRows p rows = .ok out → out.length ≤ rows.length := by
  intro rows
  induction rows with
  | nil =>
    intro out h
    simp only [filterRows] at h
    cases h
    simp
  | cons row rest ih =>
    intro out h
    simp only [filterRows] at h
    rcases hp : p row with e | b
    · rw [hp, except_bind_error] at h
      cases h
    · rw [hp, except_bind_ok] at h
      rcases hrest : filterRows p rest with e | rest'
      · rw [hrest, except_bind_error] at h
        cases h
      · rw [hrest, except_bind_ok] at h
        cases h
        have hle := ih rest' hrest
        cases b <;> simp only [if_pos, if_neg, Bool.false_eq_true,
          not_false_eq_true, if_true, if_false, List.length_cons] <;> omega

/-- selectRows preserves the row count (stated as an upper bound). -/
theorem selectRows_length_le (evalE : Expression → Row → Except String Val)
    (fields : List SelectField) :
    ∀ rows out, selectRows evalE fields rows = .ok out →
      out.length ≤ rows.length := by
  intro rows
  induction rows with
  | nil =>
    intro out h
    simp only [selectRows] at h
    cases h
    simp
  | cons row rest ih =>
    intro out h
    simp only [selectRows] at h
    rcases hfold : fields.foldlM
        (fun acc f => do
          let v ← evalE f.value row
          pure (mapSet acc f.«alias» v)) ([] : Row) with e | outRow
    · rw [hfold, except_bind_error] at h
      cases h
    · rw [hfold, except_bind_ok] at h
      rcases hrest : selectRows evalE fields rest with e | rest'
      · rw [hrest, except_bind_error] at h
        cases h
      · rw [hrest, except_bind_ok] at h
        cases h
        have hle := ih rest' hrest
        simp only [List.length_cons]
        omega

/-- mapSet grows an association list by at most one binding. -/
theorem mapSet_length_le {α : Type} (m : List (String × α)) (k : String) (v : α) :
    (mapSet m k v).length ≤ m.length + 1 := by
  induction m with
  | nil => simp [mapSet]
  | cons kv rest ih =>
    simp only [mapSet]
    split <;> simp only [List.length_cons] <;> omega

/-- A foldlM whose step grows the accumulator by at most one entry per
row is bounded by the initial length plus the row count. -/
theorem foldlM_grow_length_le {β : Type}
    (f : List (String × β) → Row → Except String (List (String × β)))
    (hf : ∀ g r out, f g r = .ok out → out.length ≤ g.length + 1) :
    ∀ (rows : List Row) (groups out : List (String × β)),
      List.foldlM f groups rows = .ok out →
      out.length ≤ groups.length + rows.length := by
  intro rows
  induction rows with
  | nil =>
    intro groups out h
    simp only [List.foldlM_nil] at h
    cases h
    simp
  | cons row rest ih =>
    intro groups out h
    simp only [List.foldlM_cons] at h
    rcases hstep : f groups row with e | g'
    · rw [hstep, except_bind_error] at h
      cases h
    · rw [hstep, except_bind_ok] at h
      have h1 := hf groups row g' hstep
      have h2 := ih g' out h
      simp only [List.length_cons]
      omega

/-- buildGroups produces at most one group per input row. -/
theorem buildGroups_length_le (evalKey : Row → Except String String)
    (rows : List Row) (out : List (String × List Row))
    (h : buildGroups evalKey rows = .ok out) :
    out.length ≤ rows.length := by
  simp only [buildGroups] at h
  have := foldlM_grow_length_le _ ?_ rows [] out h
  · simpa using this
  · intro g r gout hstep
    rcases hk : evalKey r with e | key
    · rw [hk, except_bind_error] at hstep
      cases hstep
    · rw [hk, except_bind_ok] at hstep
      cases hstep
      exact mapSet_length_le g key _

/-- performGroupBy emits at most one row per input row. -/
theorem performGroupBy_length_le (evalE : Expression → Row → Except String Val)
    (expressions : List Expression) (rows out : List Row)
    (h : performGroupBy evalE expressions rows = .ok out) :
    out.length ≤ rows.length := by
  simp only [performGroupBy] at h
  rcases hg : buildGroups (groupKeyFn evalE expressions) rows with e | groups
  · rw [hg, except_bind_error] at h
    cases h
  · rw [hg, except_bind_ok] at h
    cases h
    have := buildGroups_length_le _ rows groups hg
    simpa using this

/-- An Except-monad mapM preserves list length on success. -/
theorem mapM_length_ok {α β : Type} (f : α → Except String β) :
    ∀ (l : List α) (out : List β), (l.mapM f : Except String (List β)) = .ok out →
      out.length = l.length := by
  intro l
  induction l with
  | nil =>
    intro out h
    simp only [List.mapM_nil] at h
    cases h
    rfl
  | cons a rest ih =>
    intro out h
    simp only [List.mapM_cons] at h
    rcases ha : f a with e | b
    · rw [ha, except_bind_error] at h
      cases h
    · rw [ha, except_bind_ok] at h
      rcases hrest : (rest.mapM f : Except String (List β)) with e | bs
      · rw [hrest, except_bind_error] at h
        cases h
      · rw [hrest, except_bind_ok] at h
        cases h
        simp [ih bs hrest]

/-- performOrderBy preserves the row count (stated as an upper bound). -/
theorem performOrderBy_length_le (evalE : Expression → Row → Except String Val)
    (clauses : List OrderClause) (rows out : List Row)
    (h : performOrderBy evalE clauses rows = .ok out) :
    out.length ≤ rows.length := by
  simp only [performOrderBy] at h
  rcases hk : (rows.mapM (orderKeysFn evalE clauses) :
      Except String (List (Row × List Val))) with e | keyed
  · rw [hk, except_bind_error] at h
    cases h
  · rw [hk, except_bind_ok] at h
    cases h
    have := mapM_length_ok _ rows keyed hk
    simp [this]

/-- distinctAux never increases the row count. -/
theorem distinctAux_length_le :
    ∀ (rows : List Row) (seen : List String),
      (distinctAux seen rows).length ≤ rows.length := by
  intro rows
  induction rows with
  | nil => intro seen; simp [distinctAux]
  | cons row rest ih =>
    intro seen
    simp only [distinctAux]
    split
    · exact le_trans (ih seen) (by simp)
    · simp only [List.length_cons]
      exact Nat.succ_le_succ (ih _)

/-- jsSlice never increases the list length. -/
theorem jsSlice_length_le {α : Type} (l : List α) (a b : Int) :
    (jsSlice l a b).length ≤ l.length := by
  simp only [jsSlice, List.length_take, List.length_drop]
  omega

/-- Every pipeline step other than fetch and join is non-increasing on
the row count. -/
theorem runStep_length_le (nowISO : String) (params : List (String × String))
    (fetchRecords : Source → List Row) (sources : List SourcePlan)
    (rows : List Row) (step : PipelineStep) (out : List Row)
    (hstep : stepFetchOrJoin step = false)
    (h : runStep nowISO params fetchRecords sources rows step = .ok out) :
    out.length ≤ rows.length := by
  cases step with
  | fetch a => simp [stepFetchOrJoin] at hstep
  | join j a o => simp [stepFetchOrJoin] at hstep
  | filter e =>
    simp only [runStep] at h
    exact filterRows_length_le _ rows out h
  | group exprs =>
    simp only [runStep] at h
    exact performGroupBy_length_le _ exprs rows out h
  | having e =>
    simp only [runStep] at h
    exact filterRows_length_le _ rows out h
  | select fields =>
    simp only [runStep] at h
    exact selectRows_length_le _ fields rows out h
  | distinct =>
    simp only [runStep] at h
    cases h
    exact distinctAux_length_le rows []
  | orderBy clauses =>
    simp only [runStep] at h
    exact performOrderBy_length_le _ clauses rows out h
  | limit l off =>
    simp only [runStep] at h
    cases h
    exact jsSlice_length_le rows _ _

/-- A pipeline with no fetch and no join steps is non-increasing on the
row count. -/
theorem runPipeline_length_le (nowISO : String) (params : List (String × String))
    (fetchRecords : Source → List Row) (sources : List SourcePlan) :
    ∀ (steps : List PipelineStep),
      (∀ s ∈ steps, stepFetchOrJoin s = false) →
      ∀ rows out,
        runPipeline nowISO params fetchRecords sources steps rows = .ok out →
        out.length ≤ rows.length := by
  intro steps
  induction steps with
  | nil =>
    intro _ rows out h
    simp only [runPipeline] at h
    cases h
    exact le_refl _
  | cons step rest ih =>
    intro hall rows out h
    simp only [runPipeline] at h
    rcases hs : runStep nowISO params fetchRecords sources rows step with e | rows'
    · rw [hs, except_bind_error] at h
      cases h
    · rw [hs, except_bind_ok] at h
      have h1 := runStep_length_le nowISO params fetchRecords sources rows step rows'
        (hall step (by simp)) hs
      have h2 := ih (fun s hsm => hall s (by simp [hsm])) rows' out h
      omega

/-- Shape of a no-join plan: one fetch over the primary source, then a
pipeline of row-non-increasing steps. -/
theorem plan_no_joins_shape (q : Query) (hjoins : q.joins = []) :
    (QueryPlanner.plan q).sources = [⟨q.«from».«alias», q.«from», false⟩]
    ∧ ∃ rest, (QueryPlanner.plan q).pipeline =
        PipelineStep.fetch q.«from».«alias» :: rest
        ∧ ∀ s ∈ rest, stepFetchOrJoin s = false := by
  have h1 : ∀ s ∈ (match q.«where» with
      | some w => [PipelineStep.filter w]
      | none => []), stepFetchOrJoin s = false := by
    rcases q.«where» <;> simp [stepFetchOrJoin]
  have h2 : ∀ s ∈ (if q.groupBy.length ≠ 0
      then [PipelineStep.group q.groupBy] else []),
      stepFetchOrJoin s = false := by
    split <;> simp [stepFetchOrJoin]
  have h3 : ∀ s ∈ (match q.having with
      | some h => [PipelineStep.having h]
      | none => []), stepFetchOrJoin s = false := by
    rcases q.having <;> simp [stepFetchOrJoin]
  have h4 : ∀ s ∈ [PipelineStep.select q.select], stepFetchOrJoin s = false := by
    simp [stepFetchOrJoin]
  have h5 : ∀ s ∈ (if q.distinct then [PipelineStep.distinct] else []),
      stepFetchOrJoin s = false := by
    split <;> simp [stepFetchOrJoin]
  have h6 : ∀ s ∈ (if q.orderBy.length ≠ 0
      then [PipelineStep.orderBy q.orderBy] else []),
      stepFetchOrJoin s = false := by
    split <;> simp [stepFetchOrJoin]
  have h7 : ∀ s ∈ (match q.limit with
      | some l => if l ≠ 0 then [PipelineStep.limit l q.offset] else []
      | none => []), stepFetchOrJoin s = false := by
    rcases q.limit with _ | l
    · simp
    · split <;> simp [stepFetchOrJoin]
  constructor
  · simp [QueryPlanner.plan, hjoins]
  · refine ⟨(match q.«where» with
        | some w => [PipelineStep.filter w]
        | none => [])
      ++ ((if q.groupBy.length ≠ 0 then [PipelineStep.group q.groupBy] else [])
      ++ ((match q.having with
        | some h => [PipelineStep.having h]
        | none => [])
      ++ (PipelineStep.select q.select ::
        ((if q.distinct then [PipelineStep.distinct] else [])
      ++ ((if q.orderBy.length ≠ 0 then [PipelineStep.orderBy q.orderBy] else [])
      ++ (match q.limit with
        | some l => if l ≠ 0 then [PipelineStep.limit l q.offset] else []
        | none => [])))))), by simp [QueryPlanner.plan, hjoins], ?_⟩
    intro s hs
    simp only [List.mem_append, List.mem_cons] at hs
    rcases hs with hs | (hs | (hs | (hs | (hs | (hs | hs)))))
    · exact h1 s hs
    · exact h2 s hs
    · exact h3 s hs
    · exact h4 s (by simp [hs])
    · exact h5 s hs
    · exact h6 s hs
    · exact h7 s hs

/-- C6: for a query with no joins and no grouping, execution returns at
most as many rows as were fetched for the single source — every
remaining pipeline step (filter, select, distinct, orderBy, limit)
never increases the row count. -/
theorem C6_no_join_row_bound (q : Query) (nowISO : String)
    (params : List (String × String)) (fetchRecords : Source → List Row)
    (out : List Row)
    (hjoins : q.joins = []) (_hgroup : q.groupBy = [])
    (hex : QueryEngine.execute nowISO params fetchRecords q = .ok out) :
    out.length ≤ (fetchRecords q.«from»).length := by
  obtain ⟨hsrc, rest, hpipe, hrest⟩ := plan_no_joins_shape q hjoins
  unfold QueryEngine.execute QueryEngine.executePlan at hex
  rw [hpipe, hsrc] at hex
  simp only [runPipeline, runStep, List.find?, beq_self_eq_true] at hex
  rw [except_bind_ok] at hex
  have := runPipeline_length_le nowISO params fetchRecords _ rest hrest _ out hex
  simpa [aliasRow] using this

/-! ## Toposort and manifest lemmas (toward C8) -/

/-- mapSet followed by mapGet: the written key reads back the new
value, other keys are unaffected. -/
theorem mapGet_mapSet {α : Type} (m : List (String × α)) (k' k : String) (v : α) :
    mapGet (mapSet m k' v) k = if k' = k then some v else mapGet m k := by
  induction m with
  | nil => simp [mapSet, mapGet]
  | cons kv rest ih =>
    obtain ⟨k0, v0⟩ := kv
    simp only [mapSet]
    split
    · rename_i h
      subst h
      by_cases hk : k0 = k
      · simp [mapGet, hk]
      · simp [mapGet, hk]
    · rename_i h
      simp only [mapGet]
      split
      · rename_i h2
        rw [if_neg (by rw [h2] at h; exact fun hh => h hh.symm)]
      · rename_i h2
        rw [ih]

/-- The permanent marking only grows across a visitT run. -/
theorem visitT_perm_mono (nodes : List (String × DependencyNode)) :
    ∀ (temp todo : List String) (st : List String × List String) (x : String),
      x ∈ st.1 → x ∈ (visitT nodes temp todo st).1 := by
  intro temp todo st
  induction temp, todo, st using visitT.induct nodes with
  | case1 temp st => intro x hx; simpa [visitT] using hx
  | case2 temp k ks perm sorted hperm ih =>
    intro x hx
    simp only [visitT, if_pos hperm]
    exact ih x hx
  | case3 temp k ks perm sorted hperm htemp ih =>
    intro x hx
    simp only [visitT, if_neg hperm, if_pos htemp]
    exact ih x hx
  | case4 temp k ks perm sorted hperm htemp hnode ih =>
    intro x hx
    simp only [visitT, if_neg hperm, if_neg htemp]
    split
    · exact ih x (by simp_all)
    · rename_i node heq
      rw [hnode] at heq
      cases heq
  | case5 temp k ks perm sorted hperm htemp node hnode st ihInner ihOuter =>
    intro x hx
    simp only [visitT, if_neg hperm, if_neg htemp]
    split
    · rename_i heq
      rw [hnode] at heq
      cases heq
    · rename_i node' heq
      rw [hnode] at heq
      cases heq
      exact ihOuter x (by simp [ihInner x hx])

/-- Visiting preserves the invariant that every permanently marked key
has been emitted to the sorted output. -/
theorem visitT_perm_sub_sorted (nodes : List (String × DependencyNode)) :
    ∀ (temp todo : List String) (st : List String × List String),
      (∀ x ∈ st.1, x ∈ st.2) →
      ∀ x ∈ (visitT nodes temp todo st).1, x ∈ (visitT nodes temp todo st).2 := by
  intro temp todo st
  induction temp, todo, st using visitT.induct nodes with
  | case1 temp st =>
    intro hinv x
    simpa [visitT] using hinv x
  | case2 temp k ks perm sorted hperm ih =>
    intro hinv x
    simp only [visitT, if_pos hperm]
    exact ih hinv x
  | case3 temp k ks perm sorted hperm htemp ih =>
    intro hinv x
    simp only [visitT, if_neg hperm, if_pos htemp]
    exact ih hinv x
  | case4 temp k ks perm sorted hperm htemp hnode ih =>
    intro hinv x
    simp only [visitT, if_neg hperm, if_neg htemp]
    split
    · refine ih ?_ x
      intro y hy
      rcases List.mem_cons.mp hy with rfl | hy
      · simp
      · simp [hinv y hy]
    · rename_i node heq
      rw [hnode] at heq
      cases heq
  | case5 temp k ks perm sorted hperm htemp node hnode st ihInner ihOuter =>
    intro hinv x
    simp only [visitT, if_neg hperm, if_neg htemp]
    split
    · rename_i heq
      rw [hnode] at heq
      cases heq
    · rename_i node' heq
      rw [hnode] at heq
      cases heq
      refine ihOuter ?_ x
      intro y hy
      rcases List.mem_cons.mp hy with rfl | hy
      · simp
      · simp [ihInner hinv y hy]

/-- Every key of the work list ends up permanently marked or was on the
current DFS path when visited. -/
theorem visitT_todo_covered (nodes : List (String × DependencyNode)) :
    ∀ (temp todo : List String) (st : List String × List String),
      ∀ k' ∈ todo, k' ∈ temp ∨ k' ∈ (visitT nodes temp todo st).1 := by
  intro temp todo st
  induction temp, todo, st using visitT.induct nodes with
  | case1 temp st => intro k' hk'; cases hk'
  | case2 temp k ks perm sorted hperm ih =>
    intro k' hk'
    simp only [visitT, if_pos hperm]
    rcases List.mem_cons.mp hk' with rfl | hk'
    · right
      exact visitT_perm_mono nodes temp ks (perm, sorted) k'
        (by simpa using hperm)
    · exact ih k' hk'
  | case3 temp k ks perm sorted hperm htemp ih =>
    intro k' hk'
    simp only [visitT, if_neg hperm, if_pos htemp]
    rcases List.mem_cons.mp hk' with rfl | hk'
    · left
      simpa using htemp
    · exact ih k' hk'
  | case4 temp k ks perm sorted hperm htemp hnode ih =>
    intro k' hk'
    simp only [visitT, if_neg hperm, if_neg htemp]
    split
    · rcases List.mem_cons.mp hk' with rfl | hk'
      · right
        exact visitT_perm_mono nodes temp ks (k' :: perm, sorted ++ [k']) k'
          (by simp)
      · exact ih k' hk'
    · rename_i node heq
      rw [hnode] at heq
      cases heq
  | case5 temp k ks perm sorted hperm htemp node hnode st ihInner ihOuter =>
    intro k' hk'
    simp only [visitT, if_neg hperm, if_neg htemp]
    split
    · rename_i heq
      rw [hnode] at heq
      cases heq
    · rename_i node' heq
      rw [hnode] at heq
      cases heq
      rcases List.mem_cons.mp hk' with rfl | hk'
      · right
        exact visitT_perm_mono nodes temp ks (k' :: st.1, st.2 ++ [k']) k'
          (by simp)
      · exact ihOuter k' hk'

/-- Every key of the discovered node map appears in the build's
topological order. -/
theorem build_nodes_in_order (endpoints : List DeployedEndpoint)
    (resolveNode : ResourceRef → Option DependencyNode) (fuel : Nat)
    (k : String)
    (hk : (mapGet (DependencyGraphBuilder.build endpoints resolveNode fuel).nodes
      k).isSome = true) :
    k ∈ (DependencyGraphBuilder.build endpoints resolveNode fuel).order := by
  simp only [DependencyGraphBuilder.build] at hk ⊢
  set nodes := bfs resolveNode fuel (endpoints.map DeployedEndpoint.ref) [] []
    with hnodes
  rcases Option.isSome_iff_exists.mp hk with ⟨node, hnode⟩
  have hmem : k ∈ nodes.map Prod.fst := by
    have := mapGet_mem nodes k node hnode
    exact List.mem_map.mpr ⟨(k, node), this, rfl⟩
  have hcov := visitT_todo_covered nodes [] (nodes.map Prod.fst) ([], []) k hmem
  rcases hcov with h | h
  · cases h
  · exact visitT_perm_sub_sorted nodes [] (nodes.map Prod.fst) ([], [])
      (by intro x hx; cases hx) k h

/-- resolveStep preserves already-resolved keys. -/
theorem resolveStep_preserves (nodes : List (String × DependencyNode))
    (resources : List (String × ResolvedResource)) (key k : String)
    (h : (mapGet resources k).isSome = true) :
    (mapGet (resolveStep nodes resources key) k).isSome = true := by
  unfold resolveStep
  split
  · exact h
  · rw [mapGet_mapSet]
    split <;> simp_all

/-- The resolution fold preserves already-resolved keys. -/
theorem foldl_resolveStep_preserves (nodes : List (String × DependencyNode)) :
    ∀ (order : List String) (resources : List (String × ResolvedResource))
      (k : String), (mapGet resources k).isSome = true →
      (mapGet (order.foldl (resolveStep nodes) resources) k).isSome = true := by
  intro order
  induction order with
  | nil => intro resources k h; exact h
  | cons key rest ih =>
    intro resources k h
    exact ih _ k (resolveStep_preserves nodes resources key k h)

/-- Every ordered key with a node ends up in the resolved resources. -/
theorem resolveResources_covers (nodes : List (String × DependencyNode)) :
    ∀ (order : List String) (resources : List (String × ResolvedResource))
      (k : String), k ∈ order → (mapGet nodes k).isSome = true →
      (mapGet (order.foldl (resolveStep nodes) resources) k).isSome = true := by
  intro order
  induction order with
  | nil => intro resources k h; cases h
  | cons key rest ih =>
    intro resources k hmem hnode
    rcases List.mem_cons.mp hmem with rfl | hmem
    · refine foldl_resolveStep_preserves nodes rest _ k ?_
      unfold resolveStep
      rcases hn : mapGet nodes k with _ | node
      · rw [hn] at hnode
        cases hnode
      · rw [mapGet_mapSet]
        simp
    · exact ih _ k hmem hnode

/-- An empty validation report puts every endpoint ref in the node map. -/
theorem validate_nil_endpoints (graph : DependencyGraph)
    (hval : DependencyGraphBuilder.validate graph = []) :
    ∀ e ∈ graph.endpoints, (mapGet graph.nodes (refKey e.ref)).isSome = true := by
  intro e he
  unfold DependencyGraphBuilder.validate at hval
  rcases List.append_eq_nil.mp hval with ⟨h1, _⟩
  rw [List.filterMap_eq_nil] at h1
  have := h1 e he
  by_cases hn : (mapGet graph.nodes (refKey e.ref)).isNone
  · rw [if_pos hn] at this
    cases this
  · simpa [Option.isNone_iff_eq_none, ← Option.ne_none_iff_isSome] using hn

/-- C8: whenever ManifestBuilder.build returns a manifest, the key set
of manifest.resources is a superset of the refKeys of the deploy's
endpoints: every endpoint's ref appears as a resolved resource. -/
theorem C8_manifest_resources_superset (deployRef : ResourceRef)
    (deployRecord : DeployRecord)
    (nodeResolver : ResourceRef → Option DependencyNode)
    (fuel resolvedAt : Nat) (manifest : DeployManifest)
    (h : ManifestBuilder.build deployRef deployRecord nodeResolver fuel resolvedAt
      = .ok manifest) :
    ∀ e ∈ manifest.endpoints,
      (mapGet manifest.resources (refKey e.ref)).isSome = true := by
  unfold ManifestBuilder.build at h
  split at h
  · cases h
  · rename_i herr
    cases h
    intro e he
    simp only at he ⊢
    have hval : DependencyGraphBuilder.validate
        (DependencyGraphBuilder.build deployRecord.endpoints nodeResolver fuel)
        = [] := by
      rcases hv : DependencyGraphBuilder.validate
          (DependencyGraphBuilder.build deployRecord.endpoints nodeResolver fuel)
        with _ | ⟨err, errs⟩
      · rfl
      · rw [hv] at herr
        simp at herr
    have hnode := validate_nil_endpoints _ hval e he
    have horder := build_nodes_in_order deployRecord.endpoints nodeResolver fuel
      (refKey e.ref) hnode
    exact resolveResources_covers _ _ _ _ horder hnode

/-! ## Orchestrator lemmas (toward C1 and C2) -/

/-- setState writes the given state at the target key. -/
theorem stateOf_setState_self (deploys : Deploys) (ref : ResourceRef)
    (s : DeployState) (m : Option DeployManifest) (t : Nat) :
    stateOf (setState deploys ref s m t) (refKey ref) = some s := by
  simp [setState, stateOf, mapGet_mapSet]

/-- setState leaves every other key's state unchanged. -/
theorem stateOf_setState_other (deploys : Deploys) (ref : ResourceRef)
    (s : DeployState) (m : Option DeployManifest) (t : Nat) (key : String)
    (hk : key ≠ refKey ref) :
    stateOf (setState deploys ref s m t) key = stateOf deploys key := by
  simp [setState, stateOf, mapGet_mapSet, if_neg (Ne.symm hk)]

/-- setFailed moves a tracked target to FAILED. -/
theorem stateOf_setFailed_self (deploys : Deploys) (ref : ResourceRef)
    (msg : String) (st : DeployStatus)
    (hget : mapGet deploys (refKey ref) = some st) :
    stateOf (setFailed deploys ref msg) (refKey ref) = some .FAILED := by
  simp [setFailed, hget, stateOf, mapGet_mapSet]

/-- setFailed leaves every other key's state unchanged. -/
theorem stateOf_setFailed_other (deploys : Deploys) (ref : ResourceRef)
    (msg : String) (key : String) (hk : key ≠ refKey ref) :
    stateOf (setFailed deploys ref msg) key = stateOf deploys key := by
  unfold setFailed
  split
  · rfl
  · simp [stateOf, mapGet_mapSet, if_neg (Ne.symm hk)]

/-- The ACTIVE count of a cons cell. -/
theorem countActive_cons (k0 : String) (v0 : DeployStatus) (rest : Deploys) :
    countActive ((k0, v0) :: rest)
      = (if v0.state = .ACTIVE then 1 else 0) + countActive rest := by
  simp only [countActive, activeDeploys, List.map_cons, List.filter_cons]
  split <;> rename_i hd <;> simp only [decide_eq_true_eq] at hd <;>
    simp [hd] <;> omega

/-- The ACTIVE count of the empty map. -/
theorem countActive_nil : countActive ([] : Deploys) = 0 := rfl

/-- Writing a non-ACTIVE status never increases the ACTIVE count. -/
theorem countActive_mapSet_le (deploys : Deploys) (k : String)
    (st : DeployStatus) (hst : st.state ≠ .ACTIVE) :
    countActive (mapSet deploys k st) ≤ countActive deploys := by
  induction deploys with
  | nil => simp [mapSet, countActive_cons, countActive_nil, hst]
  | cons kv rest ih =>
    obtain ⟨k0, v0⟩ := kv
    simp only [mapSet]
    split
    · simp only [countActive_cons, if_neg hst]
      split <;> omega
    · simp only [countActive_cons]
      omega

/-- Writing any status increases the ACTIVE count by at most one. -/
theorem countActive_mapSet_le_succ (deploys : Deploys) (k : String)
    (st : DeployStatus) :
    countActive (mapSet deploys k st) ≤ countActive deploys + 1 := by
  induction deploys with
  | nil =>
    simp only [mapSet, countActive_cons, countActive_nil]
    split <;> omega
  | cons kv rest ih =>
    obtain ⟨k0, v0⟩ := kv
    simp only [mapSet]
    split
    · simp only [countActive_cons]
      split <;> split <;> omega
    · simp only [countActive_cons]
      omega

/-- Overwriting the first binding of a key whose status is ACTIVE with a
non-ACTIVE status decreases the ACTIVE count by exactly one. -/
theorem countActive_mapSet_replace (deploys : Deploys) (k : String)
    (old st : DeployStatus) (hget : mapGet deploys k = some old)
    (hold : old.state = .ACTIVE) (hst : st.state ≠ .ACTIVE) :
    countActive (mapSet deploys k st) + 1 = countActive deploys := by
  induction deploys with
  | nil => cases hget
  | cons kv rest ih =>
    obtain ⟨k0, v0⟩ := kv
    simp only [mapGet] at hget
    simp only [mapSet]
    split
    · rename_i hk0
      rw [if_pos hk0] at hget
      cases hget
      simp only [countActive_cons, if_neg hst, if_pos hold]
      omega
    · rename_i hk0
      rw [if_neg hk0] at hget
      simp only [countActive_cons]
      have := ih hget
      omega

/-- The record written by setState carries the requested state. -/
theorem setState_eq_mapSet (deploys : Deploys) (ref : ResourceRef)
    (s : DeployState) (m : Option DeployManifest) (t : Nat) :
    ∃ st : DeployStatus, st.state = s ∧
      setState deploys ref s m t = mapSet deploys (refKey ref) st := by
  refine ⟨_, ?_, rfl⟩
  rfl

/-- setState with a non-ACTIVE state never increases the ACTIVE count. -/
theorem countActive_setState_le (deploys : Deploys) (ref : ResourceRef)
    (s : DeployState) (m : Option DeployManifest) (t : Nat)
    (hs : s ≠ .ACTIVE) :
    countActive (setState deploys ref s m t) ≤ countActive deploys := by
  obtain ⟨st, hst, heq⟩ := setState_eq_mapSet deploys ref s m t
  rw [heq]
  exact countActive_mapSet_le deploys _ st (by rw [hst]; exact hs)

/-- setState increases the ACTIVE count by at most one. -/
theorem countActive_setState_le_succ (deploys : Deploys) (ref : ResourceRef)
    (s : DeployState) (m : Option DeployManifest) (t : Nat) :
    countActive (setState deploys ref s m t) ≤ countActive deploys + 1 := by
  obtain ⟨st, _, heq⟩ := setState_eq_mapSet deploys ref s m t
  rw [heq]
  exact countActive_mapSet_le_succ deploys _ st

/-- setFailed never increases the ACTIVE count. -/
theorem countActive_setFailed_le (deploys : Deploys) (ref : ResourceRef)
    (msg : String) :
    countActive (setFailed deploys ref msg) ≤ countActive deploys := by
  unfold setFailed
  split
  · exact le_refl _
  · exact countActive_mapSet_le _ _ _ (by simp)

/-- Keys after mapSet come from the old keys or the written key. -/
theorem mem_keys_mapSet {α : Type} (m : List (String × α)) (k : String) (v : α)
    (x : String) (hx : x ∈ (mapSet m k v).map Prod.fst) :
    x ∈ m.map Prod.fst ∨ x = k := by
  induction m with
  | nil => simpa [mapSet] using hx
  | cons kv rest ih =>
    obtain ⟨k0, v0⟩ := kv
    simp only [mapSet] at hx
    split at hx
    · simp only [List.map_cons, List.mem_cons] at hx ⊢
      rcases hx with h | h
      · exact Or.inl (Or.inl h)
      · exact Or.inl (Or.inr h)
    · rcases List.mem_cons.mp hx with h | h
      · exact Or.inl (by simp [h])
      · rcases ih h with h | h
        · exact Or.inl (by simp; exact Or.inr (by simpa using h))
        · exact Or.inr h

/-- mapSet preserves key uniqueness. -/
theorem nodup_keys_mapSet {α : Type} (m : List (String × α)) (k : String)
    (v : α) (h : (m.map Prod.fst).Nodup) :
    ((mapSet m k v).map Prod.fst).Nodup := by
  induction m with
  | nil => simp [mapSet]
  | cons kv rest ih =>
    obtain ⟨k0, v0⟩ := kv
    simp only [List.map_cons, List.nodup_cons] at h
    simp only [mapSet]
    split
    · simpa [List.nodup_cons] using h
    · rename_i hne
      simp only [List.map_cons, List.nodup_cons]
      refine ⟨fun hmem => ?_, ih h.2⟩
      rcases mem_keys_mapSet rest k v k0 hmem with hm | hm
      · exact h.1 hm
      · exact hne hm

/-- Members after mapSet are old members or the written binding. -/
theorem mem_mapSet {α : Type} (m : List (String × α)) (k : String) (v : α)
    (p : String × α) (hp : p ∈ mapSet m k v) : p ∈ m ∨ p = (k, v) := by
  induction m with
  | nil => exact Or.inr (by simpa [mapSet] using hp)
  | cons kv rest ih =>
    obtain ⟨k0, v0⟩ := kv
    simp only [mapSet] at hp
    split at hp
    · rename_i heq
      rcases List.mem_cons.mp hp with h | h
      · exact Or.inr (by rw [h, heq])
      · exact Or.inl (by simp [h])
    · rcases List.mem_cons.mp hp with h | h
      · exact Or.inl (by simp [h])
      · rcases ih h with h | h
        · exact Or.inl (by simp [h])
        · exact Or.inr h

/-- OrchInv is preserved by writing a consistent binding. -/
theorem OrchInv_mapSet (deploys : Deploys) (k : String) (st : DeployStatus)
    (hinv : OrchInv deploys) (hk : k = refKey st.ref) :
    OrchInv (mapSet deploys k st) := by
  refine ⟨nodup_keys_mapSet _ _ _ hinv.1, fun p hp => ?_⟩
  rcases mem_mapSet _ _ _ p hp with h | h
  · exact hinv.2 p h
  · rw [h]
    exact hk

/-- A member of a key-unique association list is what mapGet returns. -/
theorem mapGet_of_mem_nodup {α : Type} (m : List (String × α)) (k : String)
    (v : α) (hmem : (k, v) ∈ m) (hnd : (m.map Prod.fst).Nodup) :
    mapGet m k = some v := by
  induction m with
  | nil => cases hmem
  | cons kv rest ih =>
    obtain ⟨k0, v0⟩ := kv
    simp only [List.map_cons, List.nodup_cons] at hnd
    rcases List.mem_cons.mp hmem with h | h
    · cases h
      simp [mapGet]
    · have hne : k0 ≠ k := by
        intro hk
        subst hk
        exact hnd.1 (List.mem_map.mpr ⟨(k0, v), h, rfl⟩)
      simp only [mapGet, if_neg hne]
      exact ih h hnd.2

/-- setState preserves the orchestrator map invariant. -/
theorem OrchInv_setState (deploys : Deploys) (ref : ResourceRef)
    (s : DeployState) (m : Option DeployManifest) (t : Nat)
    (hinv : OrchInv deploys) : OrchInv (setState deploys ref s m t) := by
  unfold setState
  refine OrchInv_mapSet _ _ _ hinv ?_
  rcases hget : mapGet deploys (refKey ref) with _ | b
  · simp [hget]
  · have := hinv.2 _ (mapGet_mem deploys (refKey ref) b hget)
    simpa [hget] using this

/-- setFailed preserves the orchestrator map invariant. -/
theorem OrchInv_setFailed (deploys : Deploys) (ref : ResourceRef)
    (msg : String) (hinv : OrchInv deploys) :
    OrchInv (setFailed deploys ref msg) := by
  unfold setFailed
  split
  · exact hinv
  · rename_i st hget
    exact OrchInv_mapSet _ _ _ hinv
      (by simpa using hinv.2 _ (mapGet_mem deploys (refKey ref) st hget))

/-- Members of getActiveDeploys are ACTIVE statuses tracked in the map. -/
theorem activeDeploys_mem (deploys : Deploys) (st : DeployStatus)
    (h : st ∈ activeDeploys deploys) :
    st.state = .ACTIVE ∧ ∃ k, (k, st) ∈ deploys := by
  unfold activeDeploys at h
  have h1 := List.of_mem_filter h
  have h2 := List.mem_of_mem_filter h
  refine ⟨by simpa using h1, ?_⟩
  rcases List.mem_map.mp h2 with ⟨⟨k, v⟩, hmem, hv⟩
  simp only at hv
  subst hv
  exact ⟨k, hmem⟩

/-- Draining a member of getActiveDeploys decreases the ACTIVE count by
exactly one. -/
theorem countActive_setState_drain (deploys : Deploys) (hinv : OrchInv deploys)
    (oldest : DeployStatus) (hmem : oldest ∈ activeDeploys deploys)
    (s : DeployState) (hs : s ≠ .ACTIVE) (m : Option DeployManifest) (t : Nat) :
    countActive (setState deploys oldest.ref s m t) + 1 = countActive deploys := by
  obtain ⟨hact, k, hk⟩ := activeDeploys_mem deploys oldest hmem
  have hkey : k = refKey oldest.ref := hinv.2 (k, oldest) hk
  have hget : mapGet deploys (refKey oldest.ref) = some oldest := by
    rw [← hkey]
    exact mapGet_of_mem_nodup _ _ _ hk hinv.1
  obtain ⟨st, hst, heq⟩ := setState_eq_mapSet deploys oldest.ref s m t
  rw [heq]
  exact countActive_mapSet_replace _ _ _ _ hget hact (by rw [hst]; exact hs)

/-- One orchestrator operation keeps every intermediate and final map
state within the ACTIVE bound and preserves the map invariant. -/
theorem opSteps_count (K : Nat) (hK : 1 ≤ K) (deploys : Deploys) (now : Nat)
    (op : DeployOp) (hinv : OrchInv deploys) (hle : countActive deploys ≤ K) :
    (∀ σ ∈ (opSteps K deploys now op).1, countActive σ ≤ K)
    ∧ countActive (opSteps K deploys now op).2 ≤ K
    ∧ OrchInv (opSteps K deploys now op).2 := by
  cases op with
  | retire ref =>
    simp only [opSteps, retireDeploySteps]
    set s1 := setState deploys ref .DRAINING none now with hs1
    set s2 := setState s1 ref .RETIRED none (now + 1) with hs2
    have i1 : OrchInv s1 := OrchInv_setState deploys ref _ none now hinv
    have c1 : countActive s1 ≤ K :=
      le_trans (countActive_setState_le deploys ref _ none now (by decide)) hle
    have i2 : OrchInv s2 := OrchInv_setState s1 ref _ none (now + 1) i1
    have c2 : countActive s2 ≤ K :=
      le_trans (countActive_setState_le s1 ref _ none (now + 1) (by decide)) c1
    refine ⟨?_, c2, i2⟩
    intro σ hσ
    rcases hσ with _ | ⟨_, _ | ⟨_, h⟩⟩
    · exact c1
    · exact c2
    · cases h
  | process ref res =>
    cases res with
    | error msg =>
      simp only [opSteps, processDeploySteps]
      set s1 := setState deploys ref .PENDING none now with hs1
      set s2 := setState s1 ref .FETCHING none (now + 1) with hs2
      set s3 := setState s2 ref .RESOLVING none (now + 2) with hs3
      set s4 := setState s3 ref .BUILDING none (now + 3) with hs4
      set s5 := setFailed s4 ref msg with hs5
      have i1 : OrchInv s1 := OrchInv_setState deploys ref _ none now hinv
      have c1 : countActive s1 ≤ K :=
        le_trans (countActive_setState_le deploys ref _ none now (by decide)) hle
      have i2 : OrchInv s2 := OrchInv_setState s1 ref _ none (now + 1) i1
      have c2 : countActive s2 ≤ K :=
        le_trans (countActive_setState_le s1 ref _ none (now + 1) (by decide)) c1
      have i3 : OrchInv s3 := OrchInv_setState s2 ref _ none (now + 2) i2
      have c3 : countActive s3 ≤ K :=
        le_trans (countActive_setState_le s2 ref _ none (now + 2) (by decide)) c2
      have i4 : OrchInv s4 := OrchInv_setState s3 ref _ none (now + 3) i3
      have c4 : countActive s4 ≤ K :=
        le_trans (countActive_setState_le s3 ref _ none (now + 3) (by decide)) c3
      have i5 : OrchInv s5 := OrchInv_setFailed s4 ref msg i4
      have c5 : countActive s5 ≤ K :=
        le_trans (countActive_setFailed_le s4 ref msg) c4
      refine ⟨?_, c5, i5⟩
      intro σ hσ
      rcases hσ with _ | ⟨_, _ | ⟨_, _ | ⟨_, _ | ⟨_, _ | ⟨_, h⟩⟩⟩⟩⟩
      · exact c1
      · exact c2
      · exact c3
      · exact c4
      · exact c5
      · cases h
    | ok manifest =>
      simp only [opSteps, processDeploySteps]
      set s1 := setState deploys ref .PENDING none now with hs1
      set s2 := setState s1 ref .FETCHING none (now + 1) with hs2
      set s3 := setState s2 ref .RESOLVING none (now + 2) with hs3
      set s4 := setState s3 ref .BUILDING none (now + 3) with hs4
      set s5 := setState s4 ref .ACTIVATING (some manifest) (now + 4) with hs5
      have i1 : OrchInv s1 := OrchInv_setState deploys ref _ none now hinv
      have c1 : countActive s1 ≤ K :=
        le_trans (countActive_setState_le deploys ref _ none now (by decide)) hle
      have i2 : OrchInv s2 := OrchInv_setState s1 ref _ none (now + 1) i1
      have c2 : countActive s2 ≤ K :=
        le_trans (countActive_setState_le s1 ref _ none (now + 1) (by decide)) c1
      have i3 : OrchInv s3 := OrchInv_setState s2 ref _ none (now + 2) i2
      have c3 : countActive s3 ≤ K :=
        le_trans (countActive_setState_le s2 ref _ none (now + 2) (by decide)) c2
      have i4 : OrchInv s4 := OrchInv_setState s3 ref _ none (now + 3) i3
      have c4 : countActive s4 ≤ K :=
        le_trans (countActive_setState_le s3 ref _ none (now + 3) (by decide)) c3
      have i5 : OrchInv s5 :=
        OrchInv_setState s4 ref _ (some manifest) (now + 4) i4
      have c5 : countActive s5 ≤ K :=
        le_trans (countActive_setState_le s4 ref _ (some manifest) (now + 4)
          (by decide)) c4
      split
      · rename_i hge
        rcases hact : activeDeploys s5 with _ | ⟨oldest, restAct⟩
        · set s6 := setState s5 ref .ACTIVE (some manifest) (now + 5) with hs6
          have i6 : OrchInv s6 :=
            OrchInv_setState s5 ref _ (some manifest) (now + 5) i5
          have hz : countActive s5 = 0 := by
            unfold countActive
            rw [hact]
            rfl
          have c6 : countActive s6 ≤ K := by
            have := countActive_setState_le_succ s5 ref .ACTIVE (some manifest)
              (now + 5)
            rw [← hs6] at this
            omega
          refine ⟨?_, c6, i6⟩
          intro σ hσ
          rcases hσ with _ | ⟨_, _ | ⟨_, _ | ⟨_, _ | ⟨_, _ | ⟨_, _ | ⟨_, h⟩⟩⟩⟩⟩⟩
          · exact c1
          · exact c2
          · exact c3
          · exact c4
          · exact c5
          · exact c6
          · cases h
        · have hmem : oldest ∈ activeDeploys s5 := by
            rw [hact]
            exact List.mem_cons_self _ _
          set s6 := setState s5 oldest.ref .DRAINING none (now + 5) with hs6
          set s7 := setState s6 ref .ACTIVE (some manifest) (now + 6) with hs7
          have i6 : OrchInv s6 :=
            OrchInv_setState s5 oldest.ref _ none (now + 5) i5
          have hdrain : countActive s6 + 1 = countActive s5 := by
            rw [hs6]
            exact countActive_setState_drain s5 i5 oldest hmem .DRAINING
              (by decide) none (now + 5)
          have c6 : countActive s6 ≤ K := by omega
          have i7 : OrchInv s7 :=
            OrchInv_setState s6 ref _ (some manifest) (now + 6) i6
          have c7 : countActive s7 ≤ K := by
            have := countActive_setState_le_succ s6 ref .ACTIVE (some manifest)
              (now + 6)
            rw [← hs7] at this
            omega
          refine ⟨?_, c7, i7⟩
          intro σ hσ
          rcases hσ with _ | ⟨_, _ | ⟨_, _ | ⟨_, _ | ⟨_, _ | ⟨_, _ | ⟨_, _ | ⟨_, h⟩⟩⟩⟩⟩⟩⟩
          · exact c1
          · exact c2
          · exact c3
          · exact c4
          · exact c5
          · exact c6
          · exact c7
          · cases h
      · rename_i hlt
        set s6 := setState s5 ref .ACTIVE (some manifest) (now + 5) with hs6
        have i6 : OrchInv s6 :=
          OrchInv_setState s5 ref _ (some manifest) (now + 5) i5
        have c6 : countActive s6 ≤ K := by
          have h1 := countActive_setState_le_succ s5 ref .ACTIVE (some manifest)
            (now + 5)
          rw [← hs6] at h1
          have h2 : ¬ countActive s5 ≥ K := hlt
          omega
        refine ⟨?_, c6, i6⟩
        intro σ hσ
        rcases hσ with _ | ⟨_, _ | ⟨_, _ | ⟨_, _ | ⟨_, _ | ⟨_, _ | ⟨_, h⟩⟩⟩⟩⟩⟩
        · exact c1
        · exact c2
        · exact c3
        · exact c4
        · exact c5
        · exact c6
        · cases h

/-- Across a whole run from a well-formed bounded state, every
intermediate map state stays within the ACTIVE bound. -/
theorem runOps_count (K : Nat) (hK : 1 ≤ K) :
    ∀ (ops : List DeployOp) (deploys : Deploys) (now : Nat),
      OrchInv deploys → countActive deploys ≤ K →
      ∀ σ ∈ runOpsMicro K ops deploys now, countActive σ ≤ K := by
  intro ops
  induction ops with
  | nil =>
    intro deploys now _ _ σ hσ
    cases hσ
  | cons op rest ih =>
    intro deploys now hinv hle σ hσ
    simp only [runOpsMicro, List.mem_append] at hσ
    obtain ⟨h1, h2, h3⟩ := opSteps_count K hK deploys now op hinv hle
    rcases hσ with h | h
    · exact h1 σ h
    · exact ih _ _ h3 h2 σ h

/-- C8 witness: a one-endpoint deploy whose ref resolves to a leaf node
builds a manifest that resolves that endpoint's refKey. -/
theorem C8_witness :
    (mapGet (DeployManifest.mk ⟨"d", "dc"⟩ none
        [⟨"ep", "computed", ⟨"a", "c1"⟩⟩]
        [("a:c1", ResolvedResource.mk ⟨"a", "c1"⟩ "computed"
          ⟨⟨"a", "c1"⟩, "computed", []⟩ [] none)] 0).resources
        (refKey (ResourceRef.mk "a" "c1"))).isSome = true :=
  C8_manifest_resources_superset ⟨"d", "dc"⟩
    ⟨none, none, [⟨"ep", "computed", ⟨"a", "c1"⟩⟩], "t"⟩
    (fun r => if r = ⟨"a", "c1"⟩ then some ⟨r, "computed", []⟩ else none)
    2 0 _
    (by simp [ManifestBuilder.build, DependencyGraphBuilder.build,
      DependencyGraphBuilder.validate, bfs, refKey, mapSet, visitT, mapGet,
      depRefs, resolveResources, resolveStep])
    ⟨"ep", "computed", ⟨"a", "c1"⟩⟩ (by decide)

/-- C6 witness: a one-record source under a no-join no-group query
yields one row, which is at most the one record fetched. -/
theorem C6_witness :
    ([([] : Row)] : List Row).length ≤
      ([[("id", Val.vnum 1)]] : List Row).length :=
  C6_no_join_row_bound
    { select := [], «from» := ⟨"s", "col", none⟩, joins := [], «where» := none,
      groupBy := [], having := none, orderBy := [], limit := none,
      offset := none, distinct := false }
    "" [] (fun _ => [[("id", Val.vnum 1)]]) [[]] rfl rfl (by rfl)

/-- An untracked key may step to anything. -/
theorem stepOk_none (b : Option DeployState) : stepOk none b :=
  ⟨trivial, fun h => by rcases h with h | h <;> cases h⟩

/-- A key that is not RETIRED or FAILED may be moved to DRAINING. -/
theorem stepOk_to_draining (a : Option DeployState)
    (h1 : a ≠ some .RETIRED) (h2 : a ≠ some .FAILED) :
    stepOk a (some .DRAINING) := by
  refine ⟨?_, ?_⟩
  · rcases a with _ | s
    · trivial
    · cases s <;> first | decide | exact absurd rfl h1 | exact absurd rfl h2
  · intro h
    rcases h with h | h
    · exact absurd h h1
    · exact absurd h h2

/-- setFailed on a tracked key yields FAILED, whatever the state was. -/
theorem stateOf_setFailed_of_state (deploys : Deploys) (ref : ResourceRef)
    (msg : String) (s : DeployState)
    (h : stateOf deploys (refKey ref) = some s) :
    stateOf (setFailed deploys ref msg) (refKey ref) = some .FAILED := by
  rcases hget : mapGet deploys (refKey ref) with _ | st
  · simp [stateOf, hget] at h
  · exact stateOf_setFailed_self deploys ref msg st hget

/-- getLast? is unaffected by a new head on a non-empty list. -/
theorem getLast_cons_eq {α : Type} (a x : α) (l : List α)
    (h : l.getLast? = some x) : (a :: l).getLast? = some x := by
  cases l with
  | nil => simp at h
  | cons b t => rw [List.getLast?_cons_cons]; exact h

/-- Every orchestrator operation preserves the map invariant. -/
theorem opSteps_inv (K : Nat) (deploys : Deploys) (now : Nat) (op : DeployOp)
    (hinv : OrchInv deploys) : OrchInv (opSteps K deploys now op).2 := by
  cases op with
  | retire ref =>
    simp only [opSteps, retireDeploySteps]
    exact OrchInv_setState _ _ _ _ _ (OrchInv_setState _ _ _ _ _ hinv)
  | process ref res =>
    have i4 : OrchInv (setState (setState (setState
        (setState deploys ref .PENDING none now) ref .FETCHING none (now + 1))
        ref .RESOLVING none (now + 2)) ref .BUILDING none (now + 3)) :=
      OrchInv_setState _ _ _ _ _ (OrchInv_setState _ _ _ _ _
        (OrchInv_setState _ _ _ _ _ (OrchInv_setState _ _ _ _ _ hinv)))
    cases res with
    | error msg =>
      simp only [opSteps, processDeploySteps]
      exact OrchInv_setFailed _ _ _ i4
    | ok manifest =>
      have i5 : OrchInv (setState (setState (setState (setState
          (setState deploys ref .PENDING none now) ref .FETCHING none (now + 1))
          ref .RESOLVING none (now + 2)) ref .BUILDING none (now + 3))
          ref .ACTIVATING (some manifest) (now + 4)) :=
        OrchInv_setState _ _ _ _ _ i4
      simp only [opSteps, processDeploySteps]
      split
      · split
        · dsimp only
          exact OrchInv_setState _ _ _ _ _ (OrchInv_setState _ _ _ _ _ i5)
        · dsimp only
          exact OrchInv_setState _ _ _ _ _ i5
      · dsimp only
        exact OrchInv_setState _ _ _ _ _ i5

/-- Within one operation whose precondition holds, the per-key trace of
map states (initial state included) is a stepOk chain. -/
theorem opSteps_chain (K : Nat) (deploys : Deploys) (now : Nat)
    (op : DeployOp) (key : String) (hinv : OrchInv deploys)
    (hprec : precOk deploys op) :
    List.Chain' stepOk
      ((deploys :: (opSteps K deploys now op).1).map
        (fun σ => stateOf σ key)) := by
  cases op with
  | retire ref =>
    simp only [precOk] at hprec
    simp only [opSteps, retireDeploySteps]
    by_cases hk : key = refKey ref
    · subst hk
      have e1 : stateOf (setState deploys ref .DRAINING none now) (refKey ref) =
          some .DRAINING := stateOf_setState_self _ _ _ _ _
      have e2 : stateOf (setState (setState deploys ref .DRAINING none now)
          ref .RETIRED none (now + 1)) (refKey ref) = some .RETIRED :=
        stateOf_setState_self _ _ _ _ _
      simp only [List.map_cons, List.map_nil, e1, e2]
      exact List.Chain'.cons (stepOk_to_draining _ hprec.1 hprec.2)
        (List.Chain'.cons (by decide) (List.chain'_singleton _))
    · have e1 : stateOf (setState deploys ref .DRAINING none now) key =
          stateOf deploys key := stateOf_setState_other _ _ _ _ _ _ hk
      have e2 : stateOf (setState (setState deploys ref .DRAINING none now)
          ref .RETIRED none (now + 1)) key =
          stateOf (setState deploys ref .DRAINING none now) key :=
        stateOf_setState_other _ _ _ _ _ _ hk
      simp only [List.map_cons, List.map_nil, e2, e1]
      exact List.Chain'.cons (stepOk_refl _)
        (List.Chain'.cons (stepOk_refl _) (List.chain'_singleton _))
  | process ref res =>
    simp only [precOk] at hprec
    have hst0 : stateOf deploys (refKey ref) = none := by
      simp [stateOf, hprec]
    cases res with
    | error msg =>
      simp only [opSteps, processDeploySteps]
      set s1 := setState deploys ref .PENDING none now with hs1
      set s2 := setState s1 ref .FETCHING none (now + 1) with hs2
      set s3 := setState s2 ref .RESOLVING none (now + 2) with hs3
      set s4 := setState s3 ref .BUILDING none (now + 3) with hs4
      by_cases hk : key = refKey ref
      · subst hk
        have e1 : stateOf s1 (refKey ref) = some .PENDING :=
          stateOf_setState_self _ _ _ _ _
        have e2 : stateOf s2 (refKey ref) = some .FETCHING :=
          stateOf_setState_self _ _ _ _ _
        have e3 : stateOf s3 (refKey ref) = some .RESOLVING :=
          stateOf_setState_self _ _ _ _ _
        have e4 : stateOf s4 (refKey ref) = some .BUILDING :=
          stateOf_setState_self _ _ _ _ _
        have e5 : stateOf (setFailed s4 ref msg) (refKey ref) = some .FAILED :=
          stateOf_setFailed_of_state _ _ _ .BUILDING e4
        simp only [List.map_cons, List.map_nil, hst0, e1, e2, e3, e4, e5]
        exact List.Chain'.cons (by decide) (List.Chain'.cons (by decide)
          (List.Chain'.cons (by decide) (List.Chain'.cons (by decide)
            (List.Chain'.cons (by decide) (List.chain'_singleton _)))))
      · have e1 : stateOf s1 key = stateOf deploys key :=
          stateOf_setState_other _ _ _ _ _ _ hk
        have e2 : stateOf s2 key = stateOf s1 key :=
          stateOf_setState_other _ _ _ _ _ _ hk
        have e3 : stateOf s3 key = stateOf s2 key :=
          stateOf_setState_other _ _ _ _ _ _ hk
        have e4 : stateOf s4 key = stateOf s3 key :=
          stateOf_setState_other _ _ _ _ _ _ hk
        have e5 : stateOf (setFailed s4 ref msg) key = stateOf s4 key :=
          stateOf_setFailed_other _ _ _ _ hk
        simp only [List.map_cons, List.map_nil, e5, e4, e3, e2, e1]
        exact List.Chain'.cons (stepOk_refl _) (List.Chain'.cons (stepOk_refl _)
          (List.Chain'.cons (stepOk_refl _) (List.Chain'.cons (stepOk_refl _)
            (List.Chain'.cons (stepOk_refl _) (List.chain'_singleton _)))))
    | ok manifest =>
      simp only [opSteps, processDeploySteps]
      set s1 := setState deploys ref .PENDING none now with hs1
      set s2 := setState s1 ref .FETCHING none (now + 1) with hs2
      set s3 := setState s2 ref .RESOLVING none (now + 2) with hs3
      set s4 := setState s3 ref .BUILDING none (now + 3) with hs4
      set s5 := setState s4 ref .ACTIVATING (some manifest) (now + 4) with hs5
      have i5 : OrchInv s5 :=
        OrchInv_setState s4 ref _ (some manifest) (now + 4)
          (OrchInv_setState s3 ref _ none (now + 3)
            (OrchInv_setState s2 ref _ none (now + 2)
              (OrchInv_setState s1 ref _ none (now + 1)
                (OrchInv_setState deploys ref _ none now hinv))))
      have hself5 : stateOf s5 (refKey ref) = some .ACTIVATING :=
        stateOf_setState_self _ _ _ _ _
      have hchain6 : List.Chain' stepOk
          ((deploys :: [s1, s2, s3, s4, s5,
            setState s5 ref .ACTIVE (some manifest) (now + 5)]).map
            (fun σ => stateOf σ key)) := by
        by_cases hk : key = refKey ref
        · subst hk
          have e1 : stateOf s1 (refKey ref) = some .PENDING :=
            stateOf_setState_self _ _ _ _ _
          have e2 : stateOf s2 (refKey ref) = some .FETCHING :=
            stateOf_setState_self _ _ _ _ _
          have e3 : stateOf s3 (refKey ref) = some .RESOLVING :=
            stateOf_setState_self _ _ _ _ _
          have e4 : stateOf s4 (refKey ref) = some .BUILDING :=
            stateOf_setState_self _ _ _ _ _
          have e6 : stateOf (setState s5 ref .ACTIVE (some manifest) (now + 5))
              (refKey ref) = some .ACTIVE := stateOf_setState_self _ _ _ _ _
          simp only [List.map_cons, List.map_nil, hst0, e1, e2, e3, e4,
            hself5, e6]
          exact List.Chain'.cons (by decide) (List.Chain'.cons (by decide)
            (List.Chain'.cons (by decide) (List.Chain'.cons (by decide)
              (List.Chain'.cons (by decide) (List.Chain'.cons (by decide)
                (List.chain'_singleton _))))))
        · have e1 : stateOf s1 key = stateOf deploys key :=
            stateOf_setState_other _ _ _ _ _ _ hk
          have e2 : stateOf s2 key = stateOf s1 key :=
            stateOf_setState_other _ _ _ _ _ _ hk
          have e3 : stateOf s3 key = stateOf s2 key :=
            stateOf_setState_other _ _ _ _ _ _ hk
          have e4 : stateOf s4 key = stateOf s3 key :=
            stateOf_setState_other _ _ _ _ _ _ hk
          have e5 : stateOf s5 key = stateOf s4 key :=
            stateOf_setState_other _ _ _ _ _ _ hk
          have e6 : stateOf (setState s5 ref .ACTIVE (some manifest) (now + 5))
              key = stateOf s5 key := stateOf_setState_other _ _ _ _ _ _ hk
          simp only [List.map_cons, List.map_nil, e6, e5, e4, e3, e2, e1]
          exact List.Chain'.cons (stepOk_refl _)
            (List.Chain'.cons (stepOk_refl _) (List.Chain'.cons (stepOk_refl _)
              (List.Chain'.cons (stepOk_refl _) (List.Chain'.cons (stepOk_refl _)
                (List.Chain'.cons (stepOk_refl _)
                  (List.chain'_singleton _))))))
      split
      · rcases hact : activeDeploys s5 with _ | ⟨oldest, restAct⟩
        · exact hchain6
        · have hmem : oldest ∈ activeDeploys s5 := by
            rw [hact]
            exact List.mem_cons_self _ _
          obtain ⟨hstact, k, hkmem⟩ := activeDeploys_mem s5 oldest hmem
          have hkey : k = refKey oldest.ref := i5.2 (k, oldest) hkmem
          have hget : mapGet s5 (refKey oldest.ref) = some oldest := by
            rw [← hkey]
            exact mapGet_of_mem_nodup _ _ _ hkmem i5.1
          have hact5 : stateOf s5 (refKey oldest.ref) = some .ACTIVE := by
            simp [stateOf, hget, hstact]
          have hne : refKey oldest.ref ≠ refKey ref := by
            intro h
            rw [h, hself5] at hact5
            cases hact5
          show List.Chain' stepOk
            ((deploys :: [s1, s2, s3, s4, s5,
              setState s5 oldest.ref .DRAINING none (now + 5),
              setState (setState s5 oldest.ref .DRAINING none (now + 5)) ref
                .ACTIVE (some manifest) (now + 6)]).map
              (fun σ => stateOf σ key))
          by_cases hk : key = refKey ref
          · subst hk
            have e1 : stateOf s1 (refKey ref) = some .PENDING :=
              stateOf_setState_self _ _ _ _ _
            have e2 : stateOf s2 (refKey ref) = some .FETCHING :=
              stateOf_setState_self _ _ _ _ _
            have e3 : stateOf s3 (refKey ref) = some .RESOLVING :=
              stateOf_setState_self _ _ _ _ _
            have e4 : stateOf s4 (refKey ref) = some .BUILDING :=
              stateOf_setState_self _ _ _ _ _
            have e6 : stateOf (setState s5 oldest.ref .DRAINING none (now + 5))
                (refKey ref) = some .ACTIVATING := by
              rw [stateOf_setState_other _ _ _ _ _ _ (Ne.symm hne)]
              exact hself5
            have e7 : stateOf
                (setState (setState s5 oldest.ref .DRAINING none (now + 5)) ref
                  .ACTIVE (some manifest) (now + 6)) (refKey ref) =
                some .ACTIVE := stateOf_setState_self _ _ _ _ _
            simp only [List.map_cons, List.map_nil, hst0, e1, e2, e3, e4,
              hself5, e6, e7]
            exact List.Chain'.cons (by decide) (List.Chain'.cons (by decide)
              (List.Chain'.cons (by decide) (List.Chain'.cons (by decide)
                (List.Chain'.cons (by decide) (List.Chain'.cons (by decide)
                  (List.Chain'.cons (by decide)
                    (List.chain'_singleton _)))))))
          · by_cases hk2 : key = refKey oldest.ref
            · subst hk2
              have f1 : stateOf s1 (refKey oldest.ref) =
                  stateOf deploys (refKey oldest.ref) :=
                stateOf_setState_other _ _ _ _ _ _ hne
              have f2 : stateOf s2 (refKey oldest.ref) =
                  stateOf s1 (refKey oldest.ref) :=
                stateOf_setState_other _ _ _ _ _ _ hne
              have f3 : stateOf s3 (refKey oldest.ref) =
                  stateOf s2 (refKey oldest.ref) :=
                stateOf_setState_other _ _ _ _ _ _ hne
              have f4 : stateOf s4 (refKey oldest.ref) =
                  stateOf s3 (refKey oldest.ref) :=
                stateOf_setState_other _ _ _ _ _ _ hne
              have f5 : stateOf s5 (refKey oldest.ref) =
                  stateOf s4 (refKey oldest.ref) :=
                stateOf_setState_other _ _ _ _ _ _ hne
              have a0 : stateOf deploys (refKey oldest.ref) = some .ACTIVE := by
                rw [← f1, ← f2, ← f3, ← f4, ← f5]
                exact hact5
              have e6 : stateOf (setState s5 oldest.ref .DRAINING none (now + 5))
                  (refKey oldest.ref) = some .DRAINING :=
                stateOf_setState_self _ _ _ _ _
              have e7 : stateOf
                  (setState (setState s5 oldest.ref .DRAINING none (now + 5)) ref
                    .ACTIVE (some manifest) (now + 6)) (refKey oldest.ref) =
                  some .DRAINING := by
                rw [stateOf_setState_other _ _ _ _ _ _ hne]
                exact e6
              simp only [List.map_cons, List.map_nil, f5, f4, f3, f2, f1, a0,
                e6, e7]
              exact List.Chain'.cons (by decide) (List.Chain'.cons (by decide)
                (List.Chain'.cons (by decide) (List.Chain'.cons (by decide)
                  (List.Chain'.cons (by decide) (List.Chain'.cons (by decide)
                    (List.Chain'.cons (by decide)
                      (List.chain'_singleton _)))))))
            · have f1 : stateOf s1 key = stateOf deploys key :=
                stateOf_setState_other _ _ _ _ _ _ hk
              have f2 : stateOf s2 key = stateOf s1 key :=
                stateOf_setState_other _ _ _ _ _ _ hk
              have f3 : stateOf s3 key = stateOf s2 key :=
                stateOf_setState_other _ _ _ _ _ _ hk
              have f4 : stateOf s4 key = stateOf s3 key :=
                stateOf_setState_other _ _ _ _ _ _ hk
              have f5 : stateOf s5 key = stateOf s4 key :=
                stateOf_setState_other _ _ _ _ _ _ hk
              have f6 : stateOf (setState s5 oldest.ref .DRAINING none (now + 5))
                  key = stateOf s5 key :=
                stateOf_setState_other _ _ _ _ _ _ hk2
              have f7 : stateOf
                  (setState (setState s5 oldest.ref .DRAINING none (now + 5)) ref
                    .ACTIVE (some manifest) (now + 6)) key =
                  stateOf (setState s5 oldest.ref .DRAINING none (now + 5)) key :=
                stateOf_setState_other _ _ _ _ _ _ hk
              simp only [List.map_cons, List.map_nil, f7, f6, f5, f4, f3, f2, f1]
              exact List.Chain'.cons (stepOk_refl _)
                (List.Chain'.cons (stepOk_refl _)
                  (List.Chain'.cons (stepOk_refl _)
                    (List.Chain'.cons (stepOk_refl _)
                      (List.Chain'.cons (stepOk_refl _)
                        (List.Chain'.cons (stepOk_refl _)
                          (List.Chain'.cons (stepOk_refl _)
                            (List.chain'_singleton _)))))))
      · exact hchain6

/-- The last micro-state of an operation is its final state. -/
theorem opSteps_last (K : Nat) (deploys : Deploys) (now : Nat) (op : DeployOp) :
    (opSteps K deploys now op).1.getLast? = some (opSteps K deploys now op).2 := by
  cases op with
  | retire ref => rfl
  | process ref res =>
    cases res with
    | error msg => rfl
    | ok manifest =>
      simp only [opSteps, processDeploySteps]
      split
      · split <;> rfl
      · rfl

/-- Across a valid run, the per-key trace of all map states is a stepOk
chain. -/
theorem runOps_chain (K : Nat) (key : String) :
    ∀ (ops : List DeployOp) (deploys : Deploys) (now : Nat),
      OrchInv deploys → ValidFrom K deploys now ops →
      List.Chain' stepOk
        ((deploys :: runOpsMicro K ops deploys now).map
          (fun σ => stateOf σ key)) := by
  intro ops
  induction ops with
  | nil =>
    intro deploys now _ _
    simp only [runOpsMicro, List.map_cons, List.map_nil]
    exact List.chain'_singleton _
  | cons op rest ih =>
    intro deploys now hinv hvalid
    obtain ⟨hprec, hvrest⟩ := hvalid
    have h1 := opSteps_chain K deploys now op key hinv hprec
    have h2 := ih (opSteps K deploys now op).2 (now + 8)
      (opSteps_inv K deploys now op hinv) hvrest
    simp only [List.map_cons] at h1 h2
    simp only [runOpsMicro, List.map_cons, List.map_append]
    rw [← List.cons_append]
    refine List.chain'_append.mpr ⟨h1, h2.tail, ?_⟩
    intro x hx y hy
    have h3 : (List.map (fun σ => stateOf σ key)
        (opSteps K deploys now op).1).getLast? =
        some (stateOf (opSteps K deploys now op).2 key) := by
      rw [List.getLast?_map, opSteps_last]
      rfl
    have h4 : (stateOf deploys key :: List.map (fun σ => stateOf σ key)
        (opSteps K deploys now op).1).getLast? =
        some (stateOf (opSteps K deploys now op).2 key) :=
      getLast_cons_eq _ _ _ h3
    rw [h4, Option.mem_def, Option.some.injEq] at hx
    subst hx
    exact (List.chain'_cons'.mp h2).1 y hy

/-- C1: under the operation preconditions (processDeploy only for refs
the orchestrator is not yet tracking, retireDeploy never for a ref in
RETIRED or FAILED), every deploy key's state trace over all mutation
steps of the run is pairwise forward along the §4.G chain, and a key
observed in RETIRED or FAILED never changes at any later step. -/
theorem C1_state_monotone (K : Nat) (deploys : Deploys) (now : Nat)
    (ops : List DeployOp) (key : String) (hinv : OrchInv deploys)
    (hvalid : ValidFrom K deploys now ops) :
    List.Pairwise stepOk
      ((deploys :: runOpsMicro K ops deploys now).map
        (fun σ => stateOf σ key)) :=
  List.chain'_iff_pairwise.mp (runOps_chain K key ops deploys now hinv hvalid)

/-- C1 witness: a concrete valid run (process A, then retire A) whose
per-key trace for A is pairwise forward. -/
theorem C1_witness :
    OrchInv ([] : Deploys) ∧
    ValidFrom 2 [] 0 [.process refA (.ok mTriv), .retire refA] ∧
    List.Pairwise stepOk
      ((([] : Deploys) ::
        runOpsMicro 2 [.process refA (.ok mTriv), .retire refA] [] 0).map
        (fun σ => stateOf σ (refKey refA))) :=
  ⟨by decide, by decide,
    C1_state_monotone 2 [] 0 _ (refKey refA) (by decide) (by decide)⟩

/-- C1 counterexample: without the precondition, re-processing a retired
ref resurrects it — after [process A, retire A] the ref is RETIRED, yet
a further processDeploy(A) moves it back to ACTIVE, so RETIRED is not
terminal and the state moves backward. -/
theorem C1_retired_then_reactivated :
    stateOf (runOps 2 [.process refA (.ok mTriv), .retire refA] [] 0)
      (refKey refA) = some .RETIRED ∧
    stateOf (runOps 2 [.process refA (.ok mTriv), .retire refA,
      .process refA (.ok mTriv)] [] 0) (refKey refA) = some .ACTIVE := by
  decide

/-- C2: for every positive limit K, every run from the empty map keeps
the number of ACTIVE deploys at or below K at every mutation step; and
when processDeploy activates past the limit, the deploy moved to
DRAINING is the head of getActiveDeploys — the first ACTIVE deploy in
the map's insertion order — not necessarily the oldest-activated one. -/
theorem C2_active_bound_and_drain_first (K : Nat) (hK : 1 ≤ K) :
    (∀ ops : List DeployOp, ∀ σ ∈ runOpsMicro K ops ([] : Deploys) 0,
      countActive σ ≤ K) ∧
    (∀ (deploys : Deploys) (now : Nat) (ref : ResourceRef)
      (manifest : DeployManifest) (oldest : DeployStatus)
      (rest : List DeployStatus), OrchInv deploys →
      activeDeploys (afterActivating deploys ref manifest now) =
        oldest :: rest →
      countActive (afterActivating deploys ref manifest now) ≥ K →
      stateOf (processDeploySteps deploys ref (.ok manifest) K now).2
        (refKey oldest.ref) = some .DRAINING) := by
  constructor
  · intro ops σ hσ
    exact runOps_count K hK ops [] 0 (by decide) (Nat.zero_le K) σ hσ
  · intro deploys now ref manifest oldest rest hinv hact hge
    have i5 : OrchInv (afterActivating deploys ref manifest now) := by
      unfold afterActivating
      exact OrchInv_setState _ _ _ _ _ (OrchInv_setState _ _ _ _ _
        (OrchInv_setState _ _ _ _ _ (OrchInv_setState _ _ _ _ _
          (OrchInv_setState _ _ _ _ _ hinv))))
    have hmem : oldest ∈
        activeDeploys (afterActivating deploys ref manifest now) := by
      rw [hact]
      exact List.mem_cons_self _ _
    obtain ⟨hstact, k, hkmem⟩ := activeDeploys_mem _ oldest hmem
    have hkey : k = refKey oldest.ref := i5.2 (k, oldest) hkmem
    have hget : mapGet (afterActivating deploys ref manifest now)
        (refKey oldest.ref) = some oldest := by
      rw [← hkey]
      exact mapGet_of_mem_nodup _ _ _ hkmem i5.1
    have hact5 : stateOf (afterActivating deploys ref manifest now)
        (refKey oldest.ref) = some .ACTIVE := by
      simp [stateOf, hget, hstact]
    have hself5 : stateOf (afterActivating deploys ref manifest now)
        (refKey ref) = some .ACTIVATING := by
      unfold afterActivating
      exact stateOf_setState_self _ _ _ _ _
    have hne : refKey oldest.ref ≠ refKey ref := by
      intro h
      rw [h, hself5] at hact5
      cases hact5
    have heq : setState (setState (setState (setState
        (setState deploys ref .PENDING none now) ref .FETCHING none (now + 1))
        ref .RESOLVING none (now + 2)) ref .BUILDING none (now + 3))
        ref .ACTIVATING (some manifest) (now + 4) =
        afterActivating deploys ref manifest now := rfl
    simp only [processDeploySteps, heq]
    rw [if_pos hge, hact]
    dsimp only
    rw [stateOf_setState_other _ _ _ _ _ _ hne]
    exact stateOf_setState_self _ _ _ _ _

/-- C2 witness: the theorem at the default limit K = 2. -/
theorem C2_witness :
    1 ≤ 2 ∧
    ((∀ ops : List DeployOp, ∀ σ ∈ runOpsMicro 2 ops ([] : Deploys) 0,
      countActive σ ≤ 2) ∧
    (∀ (deploys : Deploys) (now : Nat) (ref : ResourceRef)
      (manifest : DeployManifest) (oldest : DeployStatus)
      (rest : List DeployStatus), OrchInv deploys →
      activeDeploys (afterActivating deploys ref manifest now) =
        oldest :: rest →
      countActive (afterActivating deploys ref manifest now) ≥ 2 →
      stateOf (processDeploySteps deploys ref (.ok manifest) 2 now).2
        (refKey oldest.ref) = some .DRAINING)) :=
  ⟨by decide, C2_active_bound_and_drain_first 2 (by decide)⟩

/-- C2 counterexample: with K = 2, after [process A, process B,
process A] the ACTIVE deploys just before processing C are A (activated
at 21) and B (activated at 13); the drain picks A, the first in
insertion order, even though B is the oldest-activated — and the final
state indeed has A DRAINING while B stays ACTIVE. -/
theorem C2_drained_not_oldest_activated :
    (activeDeploys (afterActivating (runOps 2 [.process refA (.ok mTriv),
        .process refB (.ok mTriv), .process refA (.ok mTriv)] [] 0)
        refC mTriv 24)).map (fun d => (refKey d.ref, d.activatedAt)) =
      [("did:a:ca", some 21), ("did:b:cb", some 13)] ∧
    stateOf (runOps 2 opsC2 [] 0) "did:a:ca" = some .DRAINING ∧
    stateOf (runOps 2 opsC2 [] 0) "did:b:cb" = some .ACTIVE ∧
    (13 : Nat) < 21 := by
  decide

end AVaaSt
